import Mathlib

/-!
Verification development for the fish-image scraping repository.

The Python sources are shallowly embedded: Python strings are modelled as
`List Char` (`Str`) or Lean `String` (whose `data` field is a `List Char`),
machine integers as `Nat`, filesystem directories as lists of filenames, and
the network as explicit environment records listing, per source routine, the
candidates the external site returns together with each candidate's fetch and
decode outcome.  Every definition is translated from the corresponding Python
function; library calls (`str.split`, `str.strip`, `urlparse`, PIL decoding,
`collections.Counter`) are modelled by executable Lean functions with the
library's documented semantics.
-/

namespace FishSpec

/-- Python strings are modelled as lists of characters. -/
abbrev Str := List Char

/-- Model of Python `s.startswith(pat)`: `pat` is a prefix of `s` (argument
order: pattern first). -/
def isPrefixL : Str → Str → Bool
  | [], _ => true
  | _ :: _, [] => false
  | a :: as, b :: bs => a == b && isPrefixL as bs

/-- Model of Python `pat in s` (substring containment): some suffix of `s`
has `pat` as a prefix. -/
def containsSub (pat : Str) : Str → Bool
  | [] => isPrefixL pat []
  | c :: rest => isPrefixL pat (c :: rest) || containsSub pat rest

/-- Model of Python `s.endswith(pat)`. -/
def isSuffixL (pat s : Str) : Bool := isPrefixL pat.reverse s.reverse

/-- `pat in s` for Lean `String` arguments. -/
def strHas (s pat : String) : Bool := containsSub pat.data s.data

/-- `s.startswith(pat)` for Lean `String` arguments. -/
def strStarts (s pat : String) : Bool := isPrefixL pat.data s.data

/-- `s.endswith(pat)` for Lean `String` arguments. -/
def strEnds (s pat : String) : Bool := isSuffixL pat.data s.data

/-- ASCII model of Python `str.lower` on one character. -/
def lowerChar (c : Char) : Char :=
  if 'A' ≤ c ∧ c ≤ 'Z' then Char.ofNat (c.toNat + 32) else c

/-- ASCII model of Python `str.lower`. -/
def lowerL (s : Str) : Str := s.map lowerChar

/-- `str.lower` for Lean `String` arguments. -/
def strLower (s : String) : String := ⟨lowerL s.data⟩

/-- The whitespace characters stripped by Python `str.strip()`. -/
def isSpaceChar (c : Char) : Bool :=
  c == ' ' || c == '\t' || c == '\n' || c == '\x0d' || c == '\x0b' || c == '\x0c'

/-- Model of Python `s.strip()`: drop leading and trailing whitespace. -/
def stripL (s : Str) : Str :=
  ((s.dropWhile isSpaceChar).reverse.dropWhile isSpaceChar).reverse

/-- Model of Python `s.split(sep)` for a one-character separator `sep`
(`"".split(sep) = ['']`, empty parts are kept). -/
def splitChar (sep : Char) : Str → List Str
  | [] => [[]]
  | c :: rest =>
    if c == sep then [] :: splitChar sep rest
    else
      match splitChar sep rest with
      | [] => [[c]]
      | p :: ps => (c :: p) :: ps

/-- Model of Python `sep.join(parts)`. -/
def joinSep (sep : Str) : List Str → Str
  | [] => []
  | [x] => x
  | x :: y :: ys => x ++ sep ++ joinSep sep (y :: ys)

/-- Split off the part of `s` before the first occurrence of `sep`, together
with the remainder after that occurrence (`none` when `sep` does not occur). -/
def findSplit (sep : Str) : Str → Option (Str × Str)
  | [] => none
  | c :: rest =>
    if isPrefixL sep (c :: rest) then some ([], (c :: rest).drop sep.length)
    else
      match findSplit sep rest with
      | none => none
      | some (pre, post) => some (c :: pre, post)

/-- Fuelled worker for `splitOnStr`; `fuel ≥ s.length` is always enough
because each found separator occurrence consumes at least one character. -/
def splitFuel (sep : Str) : Nat → Str → List Str
  | 0, s => [s]
  | fuel + 1, s =>
    match findSplit sep s with
    | none => [s]
    | some (pre, post) => pre :: splitFuel sep fuel post

/-- Model of Python `s.split(sep)` for a multi-character separator:
left-to-right, non-overlapping occurrences. -/
def splitOnStr (sep s : Str) : List Str :=
  if sep = [] then [s] else splitFuel sep s.length s

/-- Model of Python `s.replace(pat, rep)` for nonempty `pat`: replace
left-to-right non-overlapping occurrences. -/
def replaceSub (s pat rep : Str) : Str := joinSep rep (splitOnStr pat s)

/-- Decimal digit test, as in Python `int()` parsing. -/
def isDigitChar (c : Char) : Bool := '0' ≤ c && c ≤ '9'

/-- Model of Python `int(s)` on the digit strings produced by this program's
filenames: all-digit nonempty strings parse, everything else raises
(`none`). -/
def parseNatL (s : Str) : Option Nat :=
  if s ≠ [] && s.all isDigitChar then
    some (s.foldl (fun acc c => acc * 10 + (c.toNat - '0'.toNat)) 0)
  else none

/-- Model of Python `f"{n:04d}"` for `n ≥ 0`. -/
def pad4 (n : Nat) : String :=
  if n < 10 then "000" ++ toString n
  else if n < 100 then "00" ++ toString n
  else if n < 1000 then "0" ++ toString n
  else toString n

/-- First-seen-order deduplication against an accumulator of already seen
values, as produced by iterating a Python `seen` set / `not in` list check. -/
def dedupSeen {α : Type} [DecidableEq α] (seen : List α) : List α → List α
  | [] => []
  | x :: xs => if x ∈ seen then dedupSeen seen xs else x :: dedupSeen (x :: seen) xs

/-- Number of occurrences of `v` in `l`. -/
def countOcc (l : List Str) (v : Str) : Nat := (l.filter (fun w => w = v)).length

/-- Index of the first occurrence of `v` in `l`. -/
def firstIdx (l : List Str) (v : Str) : Nat := (l.takeWhile (fun w => w ≠ v)).length

/-- The value with the greatest `cnt` among a list of candidate keys, the
earliest key winning ties: model of `collections.Counter(vs).most_common(1)`
applied to the first-seen-ordered key list of the counter (Python `Counter`
iterates keys in first-insertion order and `most_common` sorts stably by
descending count, so ties keep first-seen order). -/
def argmaxFirst {α : Type} (cnt : α → Nat) : List α → Option α
  | [] => none
  | k :: ks =>
    match argmaxFirst cnt ks with
    | none => some k
    | some b => if cnt b > cnt k then some b else some k

/-- Model of Python `max` on a list of naturals (`0` on the empty list, which
the sources guard against). -/
def maxListN : List Nat → Nat
  | [] => 0
  | x :: xs => max x (maxListN xs)

/-- Code-point lexicographic order on strings, as used by Python `sorted`. -/
def strLeL : Str → Str → Bool
  | [], _ => true
  | _ :: _, [] => false
  | a :: as, b :: bs =>
    if a.toNat < b.toNat then true
    else if b.toNat < a.toNat then false
    else strLeL as bs

/-- Model of Python `sorted` on a list of strings. -/
def pySorted (l : List Str) : List Str :=
  List.insertionSort (fun a b => strLeL a b = true) l

/-! ## Catalog reconciliation: `fix_data/analyze_fish_data.py` -/

/-- The `unique_names` loop of `normalize_latin_name` (lines 20-25): append a
name when it is nonempty and unseen, recording it as seen. -/
def uniqueNamesAux (seen : List Str) : List Str → List Str
  | [] => []
  | n :: ns =>
    if n ≠ [] ∧ n ∉ seen then n :: uniqueNamesAux (n :: seen) ns
    else uniqueNamesAux seen ns

/-- Translation of `analyze_fish_data.normalize_latin_name`: a `none` input
models a pandas NaN.  Split on `';'`, strip each part, drop empty parts and
duplicates keeping first occurrences, join with `" ; "`. -/
def normalize_latin_name (latin : Option Str) : Str :=
  match latin with
  | none => []
  | some s =>
    if s = [] then []
    else joinSep (" ; ".data) (uniqueNamesAux [] ((splitChar ';' s).map stripL))

/-! ## Catalog reconciliation: `fix_data/final_cleanup.py` -/

/-- The scalar categorical columns merged by majority vote in
`final_cleanup` (line 127). -/
inductive ScalarCol where
  | speciesEnglish
  | kelompok
  | jenisPerairan
  | jenisKonsumsi
  | jenisHias
  | jenisDilindungi
  | prioritas
deriving DecidableEq

/-- A catalog row, restricted to the fields `final_cleanup`'s merge touches.
`none` models a pandas NaN. -/
structure Row where
  nama_latin : Option Str
  nama_daerah : Option Str
  search_keywords : Option Str
  scalars : ScalarCol → Option Str
  min_images : Option Nat

/-- The scientific names listed by one row, as `final_cleanup` collects them
(lines 90-96): split the field on `" ; "`, strip, keep nonempty parts. -/
def rowNames (r : Row) : List Str :=
  match r.nama_latin with
  | none => []
  | some s => ((splitOnStr " ; ".data s).map stripL).filter (fun n => n ≠ [])

/-- All scientific names collected over a group of rows (with repetitions;
the Python code inserts them into a set). -/
def collectLatin (g : List Row) : List Str := (g.map rowNames).flatten

/-- The regional names listed by one row (lines 101-108): only rows whose
field is non-null and strips nonempty contribute; split on `';'`. -/
def rowDaerah (r : Row) : List Str :=
  match r.nama_daerah with
  | none => []
  | some s =>
    if stripL s = [] then []
    else ((splitChar ';' s).map stripL).filter (fun n => n ≠ [])

/-- All regional names collected over a group of rows. -/
def collectDaerah (g : List Row) : List Str := (g.map rowDaerah).flatten

/-- The search keywords listed by one row (lines 114-121): split on `" ; "`. -/
def rowKeywords (r : Row) : List Str :=
  match r.search_keywords with
  | none => []
  | some s =>
    if stripL s = [] then []
    else ((splitOnStr " ; ".data s).map stripL).filter (fun n => n ≠ [])

/-- All search keywords collected over a group of rows. -/
def collectKeywords (g : List Row) : List Str := (g.map rowKeywords).flatten

/-- The non-empty stripped values of one scalar column across a group of rows
(lines 128-131). -/
def collectCol (col : ScalarCol) (g : List Row) : List Str :=
  (g.map (fun r =>
    match r.scalars col with
    | none => []
    | some v => if stripL v = [] then [] else [stripL v])).flatten

/-- The non-null minimum-image targets across a group of rows
(lines 139-140). -/
def collectMin (g : List Row) : List Nat :=
  (g.map (fun r =>
    match r.min_images with
    | none => []
    | some v => [v])).flatten

/-- `Counter(values).most_common(1)[0][0]` (line 135): the most frequent
value, ties broken by first insertion; `none` on an empty value list. -/
def mostCommonValue (values : List Str) : Option Str :=
  argmaxFirst (fun v => countOcc values v) (dedupSeen [] values)

/-- Translation of the duplicate-species merge of `final_cleanup`
(lines 85-150) applied to one group `r0 :: rs` of rows sharing a local
species name: start from the first row; replace the scientific-name field by
the sorted, `" ; "`-joined set union of the group's names; similarly union
regional names (joined with `"; "`) and search keywords; give each scalar
column its most frequent non-empty value when one exists; give the
minimum-image target the maximum of the group's non-null targets. -/
def final_cleanup_merge (r0 : Row) (rs : List Row) : Row :=
  let g := r0 :: rs
  let latins := pySorted (dedupSeen [] (collectLatin g))
  let daerah := pySorted (dedupSeen [] (collectDaerah g))
  let keywords := pySorted (dedupSeen [] (collectKeywords g))
  { r0 with
    nama_latin := some (joinSep " ; ".data latins)
    nama_daerah := if daerah ≠ [] then some (joinSep "; ".data daerah) else r0.nama_daerah
    search_keywords :=
      if keywords ≠ [] then some (joinSep " ; ".data keywords) else r0.search_keywords
    scalars := fun col =>
      match mostCommonValue (collectCol col g) with
      | some v => some v
      | none => r0.scalars col
    min_images :=
      if collectMin g ≠ [] then some (maxListN (collectMin g)) else r0.min_images }

/-! ## Image acquisition: `scraping.py`

The scraper object's fields split into an immutable part `Cfg` (assigned once
in `__init__` and never reassigned) and a mutable part `Mut` (the download
counter and the species directory's file set).  The network is an explicit
environment: each candidate carries a `FetchResult` describing what
`requests`/PIL would observe for its URL. -/

/-- Outcome of fetching and decoding one candidate URL: whether the HTTP GET
(headers) succeeds, the `content-type` header, whether streaming the body to
the temp file completes, whether PIL can decode the file, decoded pixel size,
PIL mode and format, and whether `img.save` succeeds. -/
structure FetchResult where
  ok : Bool
  contentType : String
  bodyOk : Bool
  decodeOk : Bool
  width : Nat
  height : Nat
  mode : String
  format : String
  saveOk : Bool
deriving DecidableEq

/-- Immutable scraper fields from `FishImageScraper.__init__`. -/
structure Cfg where
  species : String
  searchTerm : String
  minImages : Nat
  existingCount : Nat
deriving DecidableEq

/-- Mutable scraper state: the run's download counter and the species
directory contents (a duplicate-free list of filenames). -/
structure Mut where
  downloaded : Nat
  files : List String
deriving DecidableEq

/-- Create or overwrite a file in the directory. -/
def writeFile (name : String) (fs : List String) : List String :=
  if name ∈ fs then fs else fs ++ [name]

/-- `os.remove`: delete a file from the directory. -/
def removeFile (name : String) (fs : List String) : List String := fs.erase name

/-- Translation of `count_existing_images` (lines 61-72): count files whose
lowercased name ends in a valid image extension. -/
def count_existing_images (files : List String) : Nat :=
  (files.filter (fun f =>
    strEnds (strLower f) ".jpg" || strEnds (strLower f) ".jpeg" ||
    strEnds (strLower f) ".png" || strEnds (strLower f) ".webp")).length

/-- Translation of `get_next_file_number` (lines 74-92): one more than the
largest number parsed from existing filenames of the form
`{species}_{number}.{ext}`; unparsable number parts are skipped. -/
def get_next_file_number (species : String) (files : List String) : Nat :=
  (files.foldl (fun maxNum f =>
    if strStarts f (species ++ "_") &&
       (strEnds (strLower f) ".jpg" || strEnds (strLower f) ".jpeg" ||
        strEnds (strLower f) ".png" || strEnds (strLower f) ".webp") then
      match parseNatL ((splitChar '.' (f.data.drop (species ++ "_").data.length)).headD []) with
      | some n => max maxNum n
      | none => maxNum
    else maxNum) 0) + 1

/-- `get_total_images` (lines 94-96). -/
def get_total_images (cfg : Cfg) (m : Mut) : Nat := cfg.existingCount + m.downloaded

/-- `is_target_reached` (lines 98-100). -/
def is_target_reached (cfg : Cfg) (m : Mut) : Bool :=
  cfg.minImages ≤ get_total_images cfg m

/-- `get_remaining_needed` (lines 102-105); `Nat` subtraction is the
`max(0, ...)`. -/
def get_remaining_needed (cfg : Cfg) (m : Mut) : Nat :=
  cfg.minImages - get_total_images cfg m

/-- Model of `urllib.parse.urlparse(u).path` for the URLs this program
handles: the text after `scheme://netloc` from the first `/`, up to the query
(`?`) or fragment (`#`); for URLs without `//` the part after the scheme
colon.  (RFC corner cases such as `;`-parameters are not modelled; no claim
depends on them.) -/
def urlPath (u : Str) : Str :=
  let afterScheme :=
    match findSplit ":".data u with
    | some (_, rest) => rest
    | none => u
  if isPrefixL "//".data afterScheme then
    match findSplit "/".data (afterScheme.drop 2) with
    | some (_, rest) => '/' :: rest.takeWhile (fun c => c ≠ '?' ∧ c ≠ '#')
    | none => []
  else afterScheme.takeWhile (fun c => c ≠ '?' ∧ c ≠ '#')

/-- `self.valid_extensions` (line 59). -/
def valid_extensions : List String := [".jpg", ".jpeg", ".png", ".webp"]

/-- `unwanted_keywords` (line 124). -/
def unwantedKeywordsList : List String :=
  ["profile", "avatar", "logo", "icon", "button", "banner", "ad", "thumb", "favicon"]

/-- The image keywords of line 130. -/
def imageKeywordsList : List String := ["image", "img", "photo", "picture"]

/-- Translation of `is_valid_image_url` (lines 107-134); `none` models a
`None` argument (falsy, like the empty string). -/
def is_valid_image_url (url : Option String) : Bool :=
  match url with
  | none => false
  | some u =>
    if u.data = [] then false
    else if !strStarts u "http" then false
    else if strStarts u "data:" then false
    else
      let lowered := lowerL u.data
      let path := urlPath lowered
      let hasExtension := valid_extensions.any (fun e => isSuffixL e.data path)
      if unwantedKeywordsList.any (fun k => containsSub k.data lowered) then false
      else
        let hasImageKeywords := imageKeywordsList.any (fun k => containsSub k.data lowered)
        hasExtension || hasImageKeywords || path.length = 0

/-- The temporary filename of line 149. -/
def tempName (filename : String) : String := "temp_" ++ filename

/-- The content-type allow-list check of line 144 (substring containment in
the lowercased header). -/
def contentTypeOk (ct : String) : Bool :=
  ["image/jpeg", "image/jpg", "image/png", "image/webp"].any (fun t => strHas ct t)

/-- The extension `download_image` saves an accepted candidate under (lines
180-192): PNG exactly when the content type is exactly `image/png` and the
post-conversion mode is not RGB, else JPEG. -/
def savedExt (f : FetchResult) : String :=
  let mode :=
    if (f.mode = "RGBA" || f.mode = "LA" || f.mode = "P") || f.format = "WEBP"
    then "RGB" else f.mode
  if strLower f.contentType = "image/png" ∧ mode ≠ "RGB" then ".png" else ".jpg"

/-- The filename `download_image` saves an accepted candidate under (lines
176-192): the stored-counter number `existing_count + downloaded_count + 1`,
zero-padded. -/
def savedFileName (cfg : Cfg) (f : FetchResult) (m : Mut) : String :=
  cfg.species ++ "_" ++ pad4 (cfg.existingCount + m.downloaded + 1) ++ savedExt f

/-- Whether `download_image` accepts a candidate with fetch outcome `f`; the
accept/reject decision depends only on the fetch outcome, never on scraper
state. -/
def accepts (f : FetchResult) : Bool :=
  f.ok && contentTypeOk (strLower f.contentType) && f.bodyOk && f.decodeOk &&
  !(f.width < 150 || f.height < 150) &&
  !(5 * min f.width f.height < max f.width f.height) && f.saveOk

/-- Translation of `download_image` (lines 136-207).  Stages, in source
order: HTTP GET and `raise_for_status` (`f.ok`); content-type allow-list;
streaming body write to `temp_{filename}` (`f.bodyOk`; on failure the
partially written temp file is NOT removed — the outer handler at line 205
has no cleanup); PIL decode (`f.decodeOk`); minimum-size check; aspect-ratio
check (`max/min > 5`, exact on integers as `5*min < max`); mode conversion to
RGB for `RGBA`/`LA`/`P` modes or WEBP format; numbering by
`existing_count + downloaded_count + 1`; save as PNG when the (possibly
converted) mode is still not RGB and the content type is exactly
`image/png`, otherwise as JPEG; remove the temp file; increment the
counter. -/
def download_image (cfg : Cfg) (f : FetchResult) (filename : String) (m : Mut) :
    Bool × Mut :=
  if !f.ok then (false, m)
  else
    let ct := strLower f.contentType
    if !contentTypeOk ct then (false, m)
    else
      let temp := tempName filename
      let fs1 := writeFile temp m.files
      if !f.bodyOk then (false, { m with files := fs1 })
      else if !f.decodeOk then (false, { m with files := removeFile temp fs1 })
      else if f.width < 150 || f.height < 150 then
        (false, { m with files := removeFile temp fs1 })
      else if 5 * min f.width f.height < max f.width f.height then
        (false, { m with files := removeFile temp fs1 })
      else
        let finalName := savedFileName cfg f m
        if !f.saveOk then (false, { m with files := removeFile temp fs1 })
        else (true, { downloaded := m.downloaded + 1,
                      files := removeFile temp (writeFile finalName fs1) })

/-- `species.lower().replace(" ", "_")` from `__init__` (line 38). -/
def normalizeSpeciesName (species : String) : String :=
  ⟨(lowerL species.data).map (fun c => if c = ' ' then '_' else c)⟩

/-- Translation of `FishImageScraper.__init__` (lines 37-59) for a species
directory already holding `folder`: the search term is
`scientific_name or species`, the existing count is scanned from the
directory, the download counter starts at zero. -/
def mkScraper (species : String) (minImages : Nat) (scientificName : Option String)
    (folder : List String) : Cfg × Mut :=
  ({ species := normalizeSpeciesName species
     searchTerm :=
       match scientificName with
       | some sn => if sn = "" then species else sn
       | none => species
     minImages := minImages
     existingCount := count_existing_images folder },
   { downloaded := 0, files := folder })

/-- One candidate image held by a source page: its `src` URL and fetch
outcome. -/
structure SrcImg where
  src : String
  fetch : FetchResult
deriving DecidableEq

/-- One Wikimedia Commons search result: the file title (the URL is derived
from it) and the fetch outcome of the derived URL. -/
structure WikiFile where
  title : String
  fetch : FetchResult
deriving DecidableEq

/-- Environment of `scrape_wikimedia`: whether the search API call succeeded
and returned `query.search`, and the result list. -/
structure WikimediaEnv where
  ok : Bool
  files : List WikiFile
deriving DecidableEq

/-- The result loop of `scrape_wikimedia` (lines 823-835): break once
`downloaded_count >= min_images`, download results whose lowercased title
contains a `.jpg`/`.jpeg`/`.png` extension. -/
def wikimediaGo (cfg : Cfg) : List WikiFile → Nat → Mut → Mut
  | [], _, m => m
  | wf :: rest, i, m =>
    if cfg.minImages ≤ m.downloaded then m
    else
      let m' :=
        if [".jpg", ".jpeg", ".png"].any (fun e => strHas (strLower wf.title) e) then
          (download_image cfg wf.fetch ("wiki_" ++ toString i ++ ".jpg") m).2
        else m
      wikimediaGo cfg rest (i + 1) m'

/-- Translation of `scrape_wikimedia` (lines 790-838); a failed API call
(exception or missing `query.search`) downloads nothing. -/
def scrape_wikimedia (env : WikimediaEnv) (cfg : Cfg) (m : Mut) : Mut :=
  if env.ok then wikimediaGo cfg env.files 0 m else m

/-- Environment of one Wikipedia search term (lines 1108-1150): whether the
summary request returned 200 (an exception is modelled the same way — in both
cases nothing is processed), the `originalimage` source and fetch outcome
when present, whether `content_urls` is present, whether fetching the article
page succeeded, and the article's images. -/
structure WikiPage where
  status200 : Bool
  mainImage : Option (String × FetchResult)
  hasContentUrls : Bool
  pageOk : Bool
  imgs : List SrcImg
deriving DecidableEq

/-- The search terms of `scrape_wikipedia_images` (lines 1095-1102). -/
def wikipediaSearchTerms (cfg : Cfg) : List String :=
  [cfg.searchTerm, ⟨cfg.searchTerm.data.map (fun c => if c = ' ' then '_' else c)⟩] ++
  (if !strHas (strLower cfg.searchTerm) "fish" then [cfg.searchTerm ++ " fish"] else [])

/-- The thumbnail skip of line 1143. -/
def thumbSkip (u : String) : Bool :=
  strHas u "thumb" && (strHas u "150px" || strHas u "200px")

/-- Protocol-relative URL normalization of lines 1138-1139. -/
def normSrc (src : String) : String :=
  if strStarts src "//" then "https:" ++ src else src

/-- The article-image loop of `scrape_wikipedia_images` (lines 1133-1149). -/
def wikipediaImgs (cfg : Cfg) : List SrcImg → Mut → Mut
  | [], m => m
  | im :: rest, m =>
    if cfg.minImages ≤ m.downloaded then m
    else
      let u := normSrc im.src
      let m' :=
        if u ≠ "" ∧ is_valid_image_url (some u) then
          if thumbSkip u then m
          else (download_image cfg im.fetch
            ("wikipedia_" ++ toString m.downloaded ++ ".jpg") m).2
        else m
      wikipediaImgs cfg rest m'

/-- The `originalimage` step of one Wikipedia search term (lines 1117-1122):
download the article's main image when present and URL-valid, with no counter
check. -/
def wikipediaMainStep (cfg : Cfg) (pg : WikiPage) (m : Mut) : Mut :=
  match pg.mainImage with
  | some (u, f) =>
    if is_valid_image_url (some u) then (download_image cfg f "wikipedia_main.jpg" m).2
    else m
  | none => m

/-- Processing of one Wikipedia search term (lines 1108-1150): on a 200
response, try the `originalimage` first, then the article's images. -/
def wikipediaPage (cfg : Cfg) (pg : WikiPage) (m : Mut) : Mut :=
  if !pg.status200 then m
  else
    let m1 := wikipediaMainStep cfg pg m
    if pg.hasContentUrls ∧ pg.pageOk then wikipediaImgs cfg pg.imgs m1 else m1

/-- The term loop of `scrape_wikipedia_images` (lines 1104-1106): break once
`downloaded_count >= min_images`. -/
def wikipediaTerms (cfg : Cfg) : List (String × WikiPage) → Mut → Mut
  | [], m => m
  | (_, pg) :: rest, m =>
    if cfg.minImages ≤ m.downloaded then m
    else wikipediaTerms cfg rest (wikipediaPage cfg pg m)

/-- Translation of `scrape_wikipedia_images` (lines 1085-1155); the
environment lists the per-term responses positionally. -/
def scrape_wikipedia_images (env : List WikiPage) (cfg : Cfg) (m : Mut) : Mut :=
  wikipediaTerms cfg ((wikipediaSearchTerms cfg).zip env) m

/-- One Bing candidate URL with its fetch outcome. -/
structure BingCand where
  url : String
  fetch : FetchResult
deriving DecidableEq

/-- One Bing result page: whether fetching/parsing it succeeded, and the
candidate URLs found on it (the code deduplicates via `set`, so the order is
whatever the environment supplies). -/
structure BingPage where
  ok : Bool
  cands : List BingCand
deriving DecidableEq

/-- The backslash cleanup of lines 550-551 (`replace` removes every
backslash). -/
def bingCleanUrl (u : String) : String :=
  if strStarts u "\\" then ⟨u.data.filter (fun c => c ≠ '\\')⟩ else u

/-- The candidate loop of `scrape_bing_images` (lines 545-557): break once
`is_target_reached`, validate, download. -/
def bingCands (cfg : Cfg) (page : Nat) : List BingCand → Nat → Mut → Mut
  | [], _, m => m
  | c :: rest, i, m =>
    if is_target_reached cfg m then m
    else
      let u := bingCleanUrl c.url
      let m' :=
        if is_valid_image_url (some u) then
          (download_image cfg c.fetch
            ("bing_" ++ toString page ++ "_" ++ toString i ++ ".jpg") m).2
        else m
      bingCands cfg page rest (i + 1) m'

/-- The page loop of `scrape_bing_images` (lines 489-562): break once
`is_target_reached`; a failed page fetch skips the page. -/
def bingPages (cfg : Cfg) : List (Nat × BingPage) → Mut → Mut
  | [], m => m
  | (p, pg) :: rest, m =>
    if is_target_reached cfg m then m
    else
      let m' := if pg.ok then bingCands cfg p pg.cands 0 m else m
      bingPages cfg rest m'

/-- Translation of `scrape_bing_images` (lines 477-562): early return on an
empty search term, then up to `min(3, min_images // 35 + 1)` pages. -/
def scrape_bing_images (env : List BingPage) (cfg : Cfg) (m : Mut) : Mut :=
  if cfg.searchTerm = "" then m
  else bingPages cfg ((List.range (min 3 (cfg.minImages / 35 + 1))).zip env) m

/-- Translation of `scrape_google_images` (lines 367-475): the body reads
`self.latin_name` (line 377), an attribute `__init__` never assigns, so the
first statement of the `try` block raises `AttributeError`, the handler at
line 471 logs it, and the routine returns with the scraper state unchanged
(whether or not a WebDriver was available). -/
def scrape_google_images (_driverOk : Bool) (m : Mut) : Mut := m

/-- One Flickr search-result page. -/
structure FlickrPage where
  ok : Bool
  imgs : List SrcImg
deriving DecidableEq

/-- The thumbnail upgrade of lines 883-886. -/
def flickrUpgrade (u : String) : String :=
  if strHas u "_m.jpg" then ⟨replaceSub u.data "_m.jpg".data "_b.jpg".data⟩
  else if strHas u "_s.jpg" then ⟨replaceSub u.data "_s.jpg".data "_b.jpg".data⟩
  else u

/-- The image loop of `scrape_flickr_images` (lines 876-892): break once
`is_target_reached`; filter by `flickr` substring and a case-sensitive
extension substring; upgrade the size suffix; validate; download. -/
def flickrImgs (cfg : Cfg) (term : String) : List SrcImg → Nat → Mut → Mut
  | [], _, m => m
  | im :: rest, i, m =>
    if is_target_reached cfg m then m
    else
      let m' :=
        if im.src ≠ "" ∧ strHas im.src "flickr" ∧
           ([".jpg", ".jpeg", ".png"].any (fun e => strHas im.src e)) = true then
          let u := flickrUpgrade im.src
          if is_valid_image_url (some u) then
            (download_image cfg im.fetch
              ("flickr_" ++ term ++ "_" ++ toString i ++ ".jpg") m).2
          else m
        else m
      flickrImgs cfg term rest (i + 1) m'

/-- The search terms of `scrape_flickr_images` (lines 849-856). -/
def flickrSearchTerms (cfg : Cfg) : List String :=
  let q : String := ⟨replaceSub cfg.searchTerm.data " ".data "%20".data⟩
  [q, q ++ "%20fish", "fish%20" ++ q]

/-- The term loop of `scrape_flickr_images` (lines 858-897): break once
`is_target_reached`; a failed search fetch skips the term. -/
def flickrTerms (cfg : Cfg) : List (String × FlickrPage) → Mut → Mut
  | [], m => m
  | (t, pg) :: rest, m =>
    if is_target_reached cfg m then m
    else
      let m' := if pg.ok then flickrImgs cfg t pg.imgs 0 m else m
      flickrTerms cfg rest m'

/-- Translation of `scrape_flickr_images` (lines 840-900). -/
def scrape_flickr_images (env : List FlickrPage) (cfg : Cfg) (m : Mut) : Mut :=
  if cfg.searchTerm = "" then m
  else flickrTerms cfg ((flickrSearchTerms cfg).zip env) m

/-- One FishBase species link: its href (filtered by substring checks), and
whether fetching its page succeeded, with the page's images. -/
structure FishLink where
  href : String
  ok : Bool
  imgs : List SrcImg
deriving DecidableEq

/-- Environment of `scrape_fishbase`: whether the search request succeeded
and the links found on the result page. -/
structure FishbaseEnv where
  ok : Bool
  links : List FishLink
deriving DecidableEq

/-- The image loop of `scrape_fishbase` (lines 596-606): break once
`downloaded_count >= min_images`; a candidate must be truthy and pass
`is_valid_image_url` (which requires an `http` prefix, so the relative-URL
`urljoin` branch at lines 602-603 is unreachable). -/
def fishbaseImgs (cfg : Cfg) (linkIdx : Nat) : List SrcImg → Mut → Mut
  | [], m => m
  | im :: rest, m =>
    if cfg.minImages ≤ m.downloaded then m
    else
      let m' :=
        if im.src ≠ "" ∧ is_valid_image_url (some im.src) then
          (download_image cfg im.fetch ("fishbase_" ++ toString linkIdx ++ ".jpg") m).2
        else m
      fishbaseImgs cfg linkIdx rest m'

/-- The link loop of `scrape_fishbase` (lines 585-609), over the first three
filtered links (the filename index models `fish_links.index(fish_link)`,
which equals the position for distinct links). -/
def fishbaseLinks (cfg : Cfg) : List (Nat × FishLink) → Mut → Mut
  | [], m => m
  | (i, lk) :: rest, m =>
    if cfg.minImages ≤ m.downloaded then m
    else
      let m' := if lk.ok then fishbaseImgs cfg i lk.imgs m else m
      fishbaseLinks cfg rest m'

/-- Translation of `scrape_fishbase` (lines 564-612): links are filtered by
the `summary`/`SpecCode` substring checks of line 582 and limited to the
first three. -/
def scrape_fishbase (env : FishbaseEnv) (cfg : Cfg) (m : Mut) : Mut :=
  if env.ok then
    fishbaseLinks cfg
      ((env.links.filter (fun lk =>
        strHas lk.href "summary" && strHas lk.href "SpecCode")).take 3).enum m
  else m

/-- The whole network environment seen by one acquisition run. -/
structure Env where
  wikimedia : WikimediaEnv
  wikipedia : List WikiPage
  bing : List BingPage
  googleDriverOk : Bool
  flickr : List FlickrPage
  fishbase : FishbaseEnv
deriving DecidableEq

/-- The fixed scraper list of `run_scraping` (lines 1246-1258), in source
order: Wikimedia Commons, Wikipedia, Bing, Google, Flickr, FishBase. -/
def sourceList (env : Env) (cfg : Cfg) : List (String × (Mut → Mut)) :=
  [("wikimedia", scrape_wikimedia env.wikimedia cfg),
   ("wikipedia", scrape_wikipedia_images env.wikipedia cfg),
   ("bing", scrape_bing_images env.bing cfg),
   ("google", scrape_google_images env.googleDriverOk),
   ("flickr", scrape_flickr_images env.flickr cfg),
   ("fishbase", scrape_fishbase env.fishbase cfg)]

/-- The source loop of `run_scraping` (lines 1260-1274): before each source,
stop if the target is reached; otherwise invoke it.  Returns the final
mutable state and the names of the sources invoked, in order. -/
def runSources (cfg : Cfg) : List (String × (Mut → Mut)) → Mut → Mut × List String
  | [], m => (m, [])
  | (name, f) :: rest, m =>
    if is_target_reached cfg m then (m, [])
    else
      let step := runSources cfg rest (f m)
      (step.1, name :: step.2)

/-- Translation of `run_scraping` (lines 1229-1284): return the total image
count immediately when the target is already met, else run the source loop
and return the final total.  The third component records which source
routines were invoked. -/
def run_scraping (env : Env) (cfg : Cfg) (m : Mut) : Nat × Mut × List String :=
  if is_target_reached cfg m then (get_total_images cfg m, m, [])
  else
    let r := runSources cfg (sourceList env cfg) m
    (get_total_images cfg r.1, r.1, r.2)

/-! ## Batch orchestration: `BatchFishScraper.scrape_species` -/

/-- Parsing of the `nama_latin` field (lines 1310-1318): with the new
`" ; "` separator split on it, else split on `';'` and `','`; strip parts
and keep the nonempty ones. -/
def parseLatinNames (field : String) : List String :=
  if containsSub " ; ".data field.data then
    (((splitOnStr " ; ".data field.data).map stripL).filter (fun n => n ≠ [])).map
      (fun n => (⟨n⟩ : String))
  else
    ((((splitChar ';' field.data).map (splitChar ',')).flatten.map stripL).filter
      (fun n => n ≠ [])).map (fun n => (⟨n⟩ : String))

/-- The folder name of line 1324. -/
def folderSpeciesName (speciesName : String) : String :=
  ⟨(lowerL speciesName.data).map (fun c =>
    if c = ' ' ∨ c = '/' ∨ c = '-' then '_' else c)⟩

/-- The per-species outcome record built by `scrape_species`. -/
structure SpeciesResult where
  searchKeywordUsed : String
  targetImages : Nat
  downloadedImages : Nat
  status : String
  attempts : Nat
deriving DecidableEq

/-- The Latin-name loop of `scrape_species` (lines 1349-1399): per name,
construct a fresh scraper on the same folder with target
`min_images - total_downloaded`, run it, add its RETURN VALUE (the run's
total image count, `existing + downloaded`) to `total_downloaded`, and stop
with status `SUCCESS` once `total_downloaded >= min_images`; when the names
are exhausted the status is `PARTIAL` if `total_downloaded > 0` else
`FAILED`. -/
def scrapeSpeciesGo (folderName : String) (minImages : Nat) (allLatin : List String) :
    List (String × Env) → Nat → Nat → List String → SpeciesResult × List String
  | [], totalDownloaded, attempts, folder =>
    ({ searchKeywordUsed := ⟨joinSep ";".data (allLatin.map String.data)⟩
       targetImages := minImages
       downloadedImages := totalDownloaded
       status := if 0 < totalDownloaded then "PARTIAL" else "FAILED"
       attempts := attempts }, folder)
  | (latin, env) :: rest, totalDownloaded, attempts, folder =>
    let s := mkScraper folderName (minImages - totalDownloaded) (some latin) folder
    let cfg := { s.1 with searchTerm := latin }
    let r := run_scraping env cfg s.2
    let total' := totalDownloaded + r.1
    let folder' := r.2.1.files
    if minImages ≤ total' then
      ({ searchKeywordUsed := latin
         targetImages := minImages
         downloadedImages := total'
         status := "SUCCESS"
         attempts := attempts + 1 }, folder')
    else scrapeSpeciesGo folderName minImages allLatin rest total' (attempts + 1) folder'

/-- Translation of `BatchFishScraper.scrape_species` (lines 1305-1399) for a
catalog row with Latin-name field `namaLatinField`, per-species target
`minImages` (the batch's `images_per_species`), and a species directory
holding `folder`; `envs` lists the network environment seen by each attempt,
positionally. -/
def scrape_species (speciesName : String) (namaLatinField : String) (minImages : Nat)
    (envs : List Env) (folder : List String) : SpeciesResult × List String :=
  let latinNames := parseLatinNames namaLatinField
  if latinNames = [] then
    ({ searchKeywordUsed := ""
       targetImages := minImages
       downloadedImages := 0
       status := "FAILED"
       attempts := 0 }, folder)
  else
    scrapeSpeciesGo (folderSpeciesName speciesName) minImages latinNames
      (latinNames.zip envs) 0 0 folder

/-! ## Usability predicates and concrete example data used in statements -/

/-- A Wikimedia search result is usable when it passes the title extension
filter of line 828 and `download_image` would accept it. -/
def wikimediaUsable (wf : WikiFile) : Bool :=
  ([".jpg", ".jpeg", ".png"].any (fun e => strHas (strLower wf.title) e)) && accepts wf.fetch

/-- A Wikipedia page's `originalimage` is usable when present, URL-valid and
accepted by `download_image`. -/
def wikipediaMainUsable (pg : WikiPage) : Bool :=
  match pg.mainImage with
  | none => false
  | some (u, f) => is_valid_image_url (some u) && accepts f

/-- A Wikipedia article image is usable when its normalized URL is truthy and
valid, not skipped as a thumbnail, and accepted by `download_image`. -/
def wikipediaImgUsable (im : SrcImg) : Bool :=
  let u := normSrc im.src
  (u != "") && is_valid_image_url (some u) && !thumbSkip u && accepts im.fetch

/-- A Bing candidate is usable when its cleaned URL is valid and
`download_image` would accept it. -/
def bingUsable (c : BingCand) : Bool :=
  is_valid_image_url (some (bingCleanUrl c.url)) && accepts c.fetch

/-- Number of usable candidates in a Bing candidate list. -/
def usableCountBing (l : List BingCand) : Nat :=
  (l.filter (fun c => bingUsable c)).length

/-- A fetch outcome for a plain valid 200x200 JPEG candidate. -/
def exFetchOk : FetchResult :=
  { ok := true, contentType := "image/jpeg", bodyOk := true, decodeOk := true,
    width := 200, height := 200, mode := "RGB", format := "JPEG", saveOk := true }

/-- A candidate decoding to 100x100 pixels. -/
def exFetchSmall : FetchResult := { exFetchOk with width := 100, height := 100 }

/-- A candidate with aspect ratio 6:1 (900x150). -/
def exFetchWide : FetchResult := { exFetchOk with width := 900, height := 150 }

/-- An accepted PNG candidate that carries transparency (decoded mode
`RGBA`). -/
def exFetchPngAlpha : FetchResult :=
  { exFetchOk with contentType := "image/png", mode := "RGBA", format := "PNG" }

/-- An accepted grayscale PNG candidate without transparency (decoded mode
`L`). -/
def exFetchPngGray : FetchResult :=
  { exFetchOk with contentType := "image/png", mode := "L", format := "PNG" }

/-- A candidate whose streaming body write fails mid-transfer. -/
def exFetchBodyFail : FetchResult := { exFetchOk with bodyOk := false }

/-- A plain scraper configuration used by concrete instances. -/
def exCfg : Cfg :=
  { species := "fish", searchTerm := "fish", minImages := 10, existingCount := 0 }

/-- An empty initial mutable state. -/
def exMut : Mut := { downloaded := 0, files := [] }

/-- A species directory with a numbering gap: images 1 and 5 exist. -/
def exGapFolder : List String := ["fish_0001.jpg", "fish_0005.jpg"]

/-- A species directory holding images 1, 2 and 3. -/
def exSeqFolder : List String :=
  ["species_0001.jpg", "species_0002.jpg", "species_0003.jpg"]

/-- An environment in which Wikimedia supplies five usable candidates and
every other source supplies nothing. -/
def exEnvWm5 : Env :=
  { wikimedia :=
      { ok := true,
        files :=
          [{ title := "File:f.jpg", fetch := exFetchOk },
           { title := "File:f.jpg", fetch := exFetchOk },
           { title := "File:f.jpg", fetch := exFetchOk },
           { title := "File:f.jpg", fetch := exFetchOk },
           { title := "File:f.jpg", fetch := exFetchOk }] }
    wikipedia := []
    bing := []
    googleDriverOk := false
    flickr := []
    fishbase := { ok := false, links := [] } }

/-- An environment in which every source supplies nothing. -/
def exEnvEmpty : Env :=
  { wikimedia := { ok := false, files := [] }
    wikipedia := []
    bing := []
    googleDriverOk := false
    flickr := []
    fishbase := { ok := false, links := [] } }

/-- An environment in which the first two sources have no usable candidates
and Bing's first page has five usable candidates. -/
def exEnvBing5 : Env :=
  { wikimedia := { ok := true, files := [{ title := "File:x.gif", fetch := exFetchOk }] }
    wikipedia :=
      [{ status200 := false, mainImage := none, hasContentUrls := false,
         pageOk := false, imgs := [] }]
    bing :=
      [{ ok := true,
         cands :=
           [{ url := "http://ex.com/fish1.jpg", fetch := exFetchOk },
            { url := "http://ex.com/fish1.jpg", fetch := exFetchOk },
            { url := "http://ex.com/fish1.jpg", fetch := exFetchOk },
            { url := "http://ex.com/fish1.jpg", fetch := exFetchOk },
            { url := "http://ex.com/fish1.jpg", fetch := exFetchOk }] }]
    googleDriverOk := true
    flickr := []
    fishbase := { ok := false, links := [] } }

/-- A catalog row listing scientific names `A ; B`, a water-type value and a
minimum-image target of 30. -/
def exRow1 : Row :=
  { nama_latin := some "A ; B".data
    nama_daerah := none
    search_keywords := none
    scalars := fun _ => some "laut".data
    min_images := some 30 }

/-- A catalog row listing scientific names `B ; C`, a different water-type
value and a minimum-image target of 50. -/
def exRow2 : Row :=
  { nama_latin := some "B ; C".data
    nama_daerah := none
    search_keywords := none
    scalars := fun _ => some "tawar".data
    min_images := some 50 }

/-! ## Lemmas about `download_image` -/

theorem mem_writeFile_iff {x name : String} {fs : List String} :
    x ∈ writeFile name fs ↔ x ∈ fs ∨ x = name := by
  unfold writeFile
  split_ifs with h
  · constructor
    · exact fun hx => Or.inl hx
    · rintro (hx | rfl)
      · exact hx
      · exact h
  · simp [List.mem_append]

theorem mem_removeFile {x name : String} {fs : List String} :
    x ∈ removeFile name fs → x ∈ fs :=
  fun hx => List.mem_of_mem_erase hx

theorem mem_removeFile_writeFile {x name : String} {fs : List String} :
    x ∈ removeFile name (writeFile name fs) → x ∈ fs := by
  unfold writeFile removeFile
  split_ifs with h
  · exact fun hx => List.mem_of_mem_erase hx
  · rw [List.erase_append_right _ h, List.erase_cons_head, List.append_nil]
    exact fun hx => hx

theorem download_image_fst (cfg : Cfg) (f : FetchResult) (fn : String) (m : Mut) :
    (download_image cfg f fn m).1 = accepts f := by
  simp only [download_image]
  split_ifs with h1 h2 h3 h4 h5 h6 h7 <;> simp_all [accepts] <;> omega

theorem download_image_downloaded (cfg : Cfg) (f : FetchResult) (fn : String) (m : Mut) :
    (download_image cfg f fn m).2.downloaded =
      m.downloaded + (if accepts f then 1 else 0) := by
  simp only [download_image]
  split_ifs with h1 h2 h3 h4 h5 h6 h7 <;> simp_all [accepts] <;> omega

theorem download_image_files_reject (cfg : Cfg) (f : FetchResult) (fn : String)
    (m : Mut) (hrej : accepts f = false) (hbody : f.bodyOk = true) :
    ∀ x ∈ (download_image cfg f fn m).2.files, x ∈ m.files := by
  simp only [download_image]
  split_ifs with h1 h2 h3 h4 h5 h6 h7
  · exact fun x hx => hx
  · exact fun x hx => hx
  · simp [hbody] at h3
  · exact fun x hx => mem_removeFile_writeFile hx
  · exact fun x hx => mem_removeFile_writeFile hx
  · exact fun x hx => mem_removeFile_writeFile hx
  · exact fun x hx => mem_removeFile_writeFile hx
  · simp_all [accepts]

theorem download_image_files_of_false (cfg : Cfg) (f : FetchResult) (fn : String)
    (m : Mut) (hrej : accepts f = false) :
    ∀ x ∈ (download_image cfg f fn m).2.files, x ∈ m.files ∨ x = tempName fn := by
  simp only [download_image]
  split_ifs with h1 h2 h3 h4 h5 h6 h7
  · exact fun x hx => Or.inl hx
  · exact fun x hx => Or.inl hx
  · exact fun x hx => mem_writeFile_iff.mp hx
  · exact fun x hx => Or.inl (mem_removeFile_writeFile hx)
  · exact fun x hx => Or.inl (mem_removeFile_writeFile hx)
  · exact fun x hx => Or.inl (mem_removeFile_writeFile hx)
  · exact fun x hx => Or.inl (mem_removeFile_writeFile hx)
  · simp_all [accepts]

theorem download_image_files_accept (cfg : Cfg) (f : FetchResult) (fn : String)
    (m : Mut) (hacc : accepts f = true) (hne : savedFileName cfg f m ≠ tempName fn) :
    savedFileName cfg f m ∈ (download_image cfg f fn m).2.files := by
  simp only [download_image]
  split_ifs with h1 h2 h3 h4 h5 h6 h7
  · simp_all [accepts]
  · simp_all [accepts]
  · simp_all [accepts]
  · simp_all [accepts]
  · simp_all [accepts]
  · simp_all [accepts]
  · simp_all [accepts]
  · exact (List.mem_erase_of_ne hne).mpr (mem_writeFile_iff.mpr (Or.inr rfl))

/-! ## Claim theorems: download validation (C7, C9, C8, C3) and URL safety
(C10) -/

/-- C7: for every image candidate from any source, `download_image` rejects
the candidate when the decoded image's width or height is below 150 pixels or
the ratio of its longer side to its shorter side exceeds 5: it returns
`False`, leaves the download counter unchanged, and (whenever the temporary
body write completed, so that a decoded image exists at all) persists no
file. -/
theorem c7_small_or_elongated_rejected (cfg : Cfg) (f : FetchResult) (fn : String)
    (m : Mut)
    (hdim : f.width < 150 ∨ f.height < 150 ∨
      5 * min f.width f.height < max f.width f.height) :
    (download_image cfg f fn m).1 = false ∧
    (download_image cfg f fn m).2.downloaded = m.downloaded ∧
    (f.bodyOk = true → ∀ x ∈ (download_image cfg f fn m).2.files, x ∈ m.files) := by
  have hrej : accepts f = false := by
    rcases hdim with h | h | h <;> simp [accepts, h]
  refine ⟨by rw [download_image_fst]; exact hrej, ?_,
    fun hb => download_image_files_reject cfg f fn m hrej hb⟩
  rw [download_image_downloaded, hrej]
  simp

/-- Witness for C7 at the claim's concrete instances: a 100x100 candidate and
a 900x150 (aspect ratio 6:1) candidate are rejected. -/
theorem c7_small_or_elongated_rejected_witness :
    (download_image exCfg exFetchSmall "x.jpg" exMut).1 = false ∧
    (download_image exCfg exFetchWide "x.jpg" exMut).1 = false :=
  ⟨(c7_small_or_elongated_rejected exCfg exFetchSmall "x.jpg" exMut (by decide)).1,
   (c7_small_or_elongated_rejected exCfg exFetchWide "x.jpg" exMut (by decide)).1⟩

/-- C9 (amended): `download_image` traps every failure (the embedding is a
total function mirroring the source's all-enclosing handlers); on a `False`
return the download counter is unchanged and the only file that can newly
remain in the species directory is the temporary file `temp_{filename}` —
which DOES remain when the streaming body write fails, so the claim's "no new
file remains" is weakened to that extent. -/
theorem c9_failure_leaves_at_most_temp (cfg : Cfg) (f : FetchResult) (fn : String)
    (m : Mut) (hfail : (download_image cfg f fn m).1 = false) :
    (download_image cfg f fn m).2.downloaded = m.downloaded ∧
    ∀ x ∈ (download_image cfg f fn m).2.files, x ∈ m.files ∨ x = tempName fn := by
  have hrej : accepts f = false := by rw [download_image_fst] at hfail; exact hfail
  refine ⟨?_, download_image_files_of_false cfg f fn m hrej⟩
  rw [download_image_downloaded, hrej]
  simp

/-- Witness for C9's amended theorem at a candidate whose body write fails. -/
theorem c9_failure_leaves_at_most_temp_witness :
    (download_image exCfg exFetchBodyFail "wiki_0.jpg" exMut).2.downloaded = 0 ∧
    ∀ x ∈ (download_image exCfg exFetchBodyFail "wiki_0.jpg" exMut).2.files,
      x ∈ exMut.files ∨ x = tempName "wiki_0.jpg" :=
  c9_failure_leaves_at_most_temp exCfg exFetchBodyFail "wiki_0.jpg" exMut (by decide)

/-- Counterexample to C9 as stated: a candidate whose streaming body write
fails makes `download_image` return `False`, yet the partially written
`temp_wiki_0.jpg` remains in the (initially empty) species directory — the
outer handler at line 205 performs no cleanup. -/
theorem c9_counterexample_temp_file_persists :
    (download_image exCfg exFetchBodyFail "wiki_0.jpg" exMut).1 = false ∧
    (download_image exCfg exFetchBodyFail "wiki_0.jpg" exMut).2.files =
      ["temp_wiki_0.jpg"] ∧
    "temp_wiki_0.jpg" ∉ exMut.files := by decide

/-- C8 evaluated at the failing input (code bug): an accepted PNG candidate
that carries transparency (decoded mode RGBA) is converted to RGB first and
therefore saved as lossy JPEG `fish_0001.jpg`, while an accepted grayscale
PNG without transparency (mode L) is the one saved as PNG — the opposite of
the claim and of the code's own comment "Keep as PNG if it has
transparency". -/
theorem c8_transparency_saved_as_jpeg :
    accepts exFetchPngAlpha = true ∧
    (download_image exCfg exFetchPngAlpha "x.jpg" exMut).2.files = ["fish_0001.jpg"] ∧
    accepts exFetchPngGray = true ∧
    (download_image exCfg exFetchPngGray "x.jpg" exMut).2.files = ["fish_0001.png"] := by
  decide

/-- Counterexample to C3 as stated: in a directory holding `fish_0001.jpg`
and `fish_0005.jpg`, the running-maximum scan (`get_next_file_number`, which
`download_image` never calls) yields 6, but the accepted download is saved as
`fish_0003.jpg` (`existing_count + downloaded_count + 1` with
`existing_count = 2`), not as `fish_0006.jpg`. -/
theorem c3_counterexample_gap_numbering :
    get_next_file_number "fish" exGapFolder = 6 ∧
    (download_image (mkScraper "fish" 10 none exGapFolder).1 exFetchOk "bing_0_0.jpg"
        (mkScraper "fish" 10 none exGapFolder).2).1 = true ∧
    (download_image (mkScraper "fish" 10 none exGapFolder).1 exFetchOk "bing_0_0.jpg"
        (mkScraper "fish" 10 none exGapFolder).2).2.files =
      ["fish_0001.jpg", "fish_0005.jpg", "fish_0003.jpg"] ∧
    "fish_0006.jpg" ∉
      (download_image (mkScraper "fish" 10 none exGapFolder).1 exFetchOk "bing_0_0.jpg"
          (mkScraper "fish" 10 none exGapFolder).2).2.files := by
  decide

/-- C3 (amended): new images are numbered by the stored counters,
`existing_count + downloaded_count + 1` zero-padded (`savedFileName`), not by
a maximum scan of existing filenames; in particular with
`species_0001..0003.jpg` present two accepted downloads are saved as
`species_0004.jpg` and `species_0005.jpg`. -/
theorem c3_amended_count_based_numbering :
    (∀ (cfg : Cfg) (f : FetchResult) (fn : String) (m : Mut),
      accepts f = true → savedFileName cfg f m ≠ tempName fn →
      (download_image cfg f fn m).1 = true ∧
      savedFileName cfg f m ∈ (download_image cfg f fn m).2.files) ∧
    ("species_0004.jpg" ∈
      (download_image (mkScraper "species" 5 none exSeqFolder).1 exFetchOk "wiki_0.jpg"
        (mkScraper "species" 5 none exSeqFolder).2).2.files ∧
     "species_0005.jpg" ∈
      (download_image (mkScraper "species" 5 none exSeqFolder).1 exFetchOk "wiki_1.jpg"
        (download_image (mkScraper "species" 5 none exSeqFolder).1 exFetchOk "wiki_0.jpg"
          (mkScraper "species" 5 none exSeqFolder).2).2).2.files) := by
  constructor
  · intro cfg f fn m hacc hne
    exact ⟨by rw [download_image_fst]; exact hacc,
      download_image_files_accept cfg f fn m hacc hne⟩
  · decide

/-- Witness for C3's amended theorem at a concrete accepted candidate. -/
theorem c3_amended_count_based_numbering_witness :
    (download_image exCfg exFetchOk "wiki_0.jpg" exMut).1 = true ∧
    savedFileName exCfg exFetchOk exMut ∈
      (download_image exCfg exFetchOk "wiki_0.jpg" exMut).2.files :=
  c3_amended_count_based_numbering.1 exCfg exFetchOk "wiki_0.jpg" exMut
    (by decide) (by decide)

/-- C10: `is_valid_image_url` is total (it is a Lean function returning
`Bool`, mirroring the all-enclosing `try/except` of the source); it returns
`False` on `None`, on every URL that does not start with `http`, and on every
URL whose lowercased text contains one of the unwanted keywords — regardless
of its extension. -/
theorem c10_is_valid_image_url_rejections :
    is_valid_image_url none = false ∧
    (∀ u : String, strStarts u "http" = false → is_valid_image_url (some u) = false) ∧
    (∀ u k : String, k ∈ unwantedKeywordsList →
      containsSub k.data (lowerL u.data) = true →
      is_valid_image_url (some u) = false) := by
  refine ⟨rfl, ?_, ?_⟩
  · intro u h
    simp only [is_valid_image_url]
    split_ifs with h1 h2 h3 h4 <;> simp_all
  · intro u k hk hsub
    simp only [is_valid_image_url]
    split_ifs with h1 h2 h3 h4 <;> try rfl
    exfalso
    apply h4
    refine List.any_eq_true.mpr ⟨k, hk, ?_⟩
    exact hsub

/-- Witness for C10: a non-`http` URL and an `http` URL containing `logo`
that ends in a valid image extension are both rejected. -/
theorem c10_is_valid_image_url_rejections_witness :
    is_valid_image_url (some "ftp://site.com/a.jpg") = false ∧
    is_valid_image_url (some "http://site.com/fish/logo.jpg") = false :=
  ⟨c10_is_valid_image_url_rejections.2.1 "ftp://site.com/a.jpg" (by decide),
   c10_is_valid_image_url_rejections.2.2 "http://site.com/fish/logo.jpg" "logo"
     (by decide) (by decide)⟩

/-! ## Claim theorems: run-level behaviour (C4) -/

/-- C4: for a species whose startup scan finds `E` valid images with target
`N <= E`, `run_scraping` returns `E`, leaves the scraper state unchanged
(zero downloads), and invokes no source routine. -/
theorem c4_enough_existing_downloads_nothing (env : Env) (species : String)
    (minImages : Nat) (sn : Option String) (folder : List String)
    (h : minImages ≤ count_existing_images folder) :
    run_scraping env (mkScraper species minImages sn folder).1
        (mkScraper species minImages sn folder).2 =
      (count_existing_images folder, (mkScraper species minImages sn folder).2, []) := by
  unfold run_scraping is_target_reached get_total_images mkScraper
  simp [h]

/-- Witness for C4: one existing image, target one, nothing scraped. -/
theorem c4_enough_existing_downloads_nothing_witness :
    run_scraping exEnvEmpty (mkScraper "a" 1 none ["a_0001.jpg"]).1
        (mkScraper "a" 1 none ["a_0001.jpg"]).2 =
      (count_existing_images ["a_0001.jpg"], (mkScraper "a" 1 none ["a_0001.jpg"]).2, []) :=
  c4_enough_existing_downloads_nothing exEnvEmpty "a" 1 none ["a_0001.jpg"] (by decide)

/-! ## Claim C1: source fallback chain -/

theorem wikimediaGo_no_usable (cfg : Cfg) (files : List WikiFile) (i : Nat) (m : Mut)
    (h : ∀ wf ∈ files, wikimediaUsable wf = false) :
    (wikimediaGo cfg files i m).downloaded = m.downloaded := by
  induction files generalizing i m with
  | nil => rfl
  | cons wf rest ih =>
    simp only [wikimediaGo]
    split_ifs with h1 h2
    · rfl
    · have hu := h wf (by simp)
      have hacc : accepts wf.fetch = false := by
        simp only [wikimediaUsable, h2, Bool.true_and] at hu
        exact hu
      rw [ih _ _ (fun x hx => h x (List.mem_cons_of_mem _ hx))]
      rw [download_image_downloaded, hacc]
      simp
    · exact ih _ _ (fun x hx => h x (List.mem_cons_of_mem _ hx))

theorem scrape_wikimedia_no_usable (env : WikimediaEnv) (cfg : Cfg) (m : Mut)
    (h : ∀ wf ∈ env.files, wikimediaUsable wf = false) :
    (scrape_wikimedia env cfg m).downloaded = m.downloaded := by
  unfold scrape_wikimedia
  split_ifs with h1
  · exact wikimediaGo_no_usable cfg env.files 0 m h
  · rfl

theorem wikipediaImgs_no_usable (cfg : Cfg) (imgs : List SrcImg) (m : Mut)
    (h : ∀ im ∈ imgs, wikipediaImgUsable im = false) :
    (wikipediaImgs cfg imgs m).downloaded = m.downloaded := by
  induction imgs generalizing m with
  | nil => rfl
  | cons im rest ih =>
    simp only [wikipediaImgs]
    split_ifs with h1 h2 h3
    · rfl
    · exact ih _ (fun x hx => h x (List.mem_cons_of_mem _ hx))
    · have hu := h im (by simp)
      have hacc : accepts im.fetch = false := by
        simp [wikipediaImgUsable, h2.2, h3] at hu
        first
          | exact hu
          | exact hu h2.1
      rw [ih _ (fun x hx => h x (List.mem_cons_of_mem _ hx))]
      rw [download_image_downloaded, hacc]
      simp
    · exact ih _ (fun x hx => h x (List.mem_cons_of_mem _ hx))

theorem wikipediaMainStep_no_usable (cfg : Cfg) (pg : WikiPage) (m : Mut)
    (hmain : wikipediaMainUsable pg = false) :
    (wikipediaMainStep cfg pg m).downloaded = m.downloaded := by
  unfold wikipediaMainStep
  cases hmi : pg.mainImage with
  | none => rfl
  | some p =>
    obtain ⟨u, f⟩ := p
    simp only [wikipediaMainUsable, hmi] at hmain
    show (if is_valid_image_url (some u) = true then
      (download_image cfg f "wikipedia_main.jpg" m).2 else m).downloaded = m.downloaded
    split_ifs with hv
    · have hacc : accepts f = false := by
        simp only [hv, Bool.true_and] at hmain
        exact hmain
      rw [download_image_downloaded, hacc]
      simp
    · rfl

theorem wikipediaPage_no_usable (cfg : Cfg) (pg : WikiPage) (m : Mut)
    (hmain : pg.status200 = true → wikipediaMainUsable pg = false)
    (himgs : pg.status200 = true → ∀ im ∈ pg.imgs, wikipediaImgUsable im = false) :
    (wikipediaPage cfg pg m).downloaded = m.downloaded := by
  unfold wikipediaPage
  split_ifs with h1 h2
  · rfl
  · have hst : pg.status200 = true := by simpa using h1
    rw [wikipediaImgs_no_usable cfg pg.imgs _ (himgs hst)]
    exact wikipediaMainStep_no_usable cfg pg m (hmain hst)
  · have hst : pg.status200 = true := by simpa using h1
    exact wikipediaMainStep_no_usable cfg pg m (hmain hst)

theorem wikipediaTerms_no_usable (cfg : Cfg) (l : List (String × WikiPage)) (m : Mut)
    (h : ∀ tp ∈ l, (tp : String × WikiPage).2.status200 = true →
      wikipediaMainUsable tp.2 = false ∧ ∀ im ∈ tp.2.imgs, wikipediaImgUsable im = false) :
    (wikipediaTerms cfg l m).downloaded = m.downloaded := by
  induction l generalizing m with
  | nil => rfl
  | cons tp rest ih =>
    simp only [wikipediaTerms]
    split_ifs with h1
    · rfl
    · rw [ih _ (fun x hx => h x (List.mem_cons_of_mem _ hx))]
      exact wikipediaPage_no_usable cfg tp.2 m
        (fun hst => (h tp (by simp) hst).1) (fun hst => (h tp (by simp) hst).2)

theorem scrape_wikipedia_no_usable (env : List WikiPage) (cfg : Cfg) (m : Mut)
    (h : ∀ pg ∈ env, pg.status200 = true →
      wikipediaMainUsable pg = false ∧ ∀ im ∈ pg.imgs, wikipediaImgUsable im = false) :
    (scrape_wikipedia_images env cfg m).downloaded = m.downloaded := by
  unfold scrape_wikipedia_images
  exact wikipediaTerms_no_usable cfg _ m
    (fun tp htp => h tp.2 (List.of_mem_zip htp).2)

theorem bingCands_exact (cfg : Cfg) (page : Nat) (cands : List BingCand) (i : Nat)
    (m : Mut) (h : get_remaining_needed cfg m ≤ usableCountBing cands) :
    (bingCands cfg page cands i m).downloaded =
      m.downloaded + get_remaining_needed cfg m := by
  induction cands generalizing i m with
  | nil =>
    have : get_remaining_needed cfg m = 0 := by
      simpa [usableCountBing] using h
    simp [bingCands, this]
  | cons c rest ih =>
    simp only [bingCands]
    split_ifs with h1 h2
    · have : get_remaining_needed cfg m = 0 := by
        unfold is_target_reached at h1
        unfold get_remaining_needed
        simp only [decide_eq_true_eq] at h1
        omega
      simp [this]
    · rcases hacc : accepts c.fetch with _ | _
      · have hud : bingUsable c = false := by simp [bingUsable, hacc]
        have hcount : usableCountBing (c :: rest) = usableCountBing rest := by
          simp [usableCountBing, hud]
        have hdl : (download_image cfg c.fetch
            ("bing_" ++ toString page ++ "_" ++ toString i ++ ".jpg") m).2.downloaded =
            m.downloaded := by
          rw [download_image_downloaded, hacc]
          simp
        have hrem : get_remaining_needed cfg (download_image cfg c.fetch
            ("bing_" ++ toString page ++ "_" ++ toString i ++ ".jpg") m).2 =
            get_remaining_needed cfg m := by
          unfold get_remaining_needed get_total_images
          rw [hdl]
        rw [ih _ _ (by rw [hrem]; omega), hdl, hrem]
      · have hud : bingUsable c = true := by simp [bingUsable, hacc, h2]
        have hcount : usableCountBing (c :: rest) = usableCountBing rest + 1 := by
          simp [usableCountBing, hud]
        have hdl : (download_image cfg c.fetch
            ("bing_" ++ toString page ++ "_" ++ toString i ++ ".jpg") m).2.downloaded =
            m.downloaded + 1 := by
          rw [download_image_downloaded, hacc]
          simp
        have hpos : 0 < get_remaining_needed cfg m := by
          unfold is_target_reached at h1
          unfold get_remaining_needed
          simp only [decide_eq_true_eq] at h1
          omega
        have hrem : get_remaining_needed cfg (download_image cfg c.fetch
            ("bing_" ++ toString page ++ "_" ++ toString i ++ ".jpg") m).2 =
            get_remaining_needed cfg m - 1 := by
          unfold get_remaining_needed get_total_images at *
          rw [hdl]
          omega
        rw [ih _ _ (by rw [hrem]; omega), hdl, hrem]
        omega
    · have hud : bingUsable c = false := by
        simp only [bingUsable]
        simp only [Bool.not_eq_true] at h2
        simp [h2]
      have hcount : usableCountBing (c :: rest) = usableCountBing rest := by
        simp [usableCountBing, hud]
      exact ih _ _ (by omega)

theorem bingPages_reached (cfg : Cfg) (pages : List (Nat × BingPage)) (m : Mut)
    (h : is_target_reached cfg m = true) : bingPages cfg pages m = m := by
  cases pages with
  | nil => rfl
  | cons p rest => simp [bingPages, h]

theorem scrape_bing_exact (cfg : Cfg) (pg1 : BingPage) (rest : List BingPage) (m : Mut)
    (hterm : cfg.searchTerm ≠ "") (hok : pg1.ok = true)
    (hnot : is_target_reached cfg m = false)
    (hcount : get_remaining_needed cfg m ≤ usableCountBing pg1.cands) :
    (scrape_bing_images (pg1 :: rest) cfg m).downloaded =
      m.downloaded + get_remaining_needed cfg m := by
  unfold scrape_bing_images
  rw [if_neg hterm]
  obtain ⟨k, hk⟩ : ∃ k, min 3 (cfg.minImages / 35 + 1) = k + 1 := by
    refine ⟨min 3 (cfg.minImages / 35 + 1) - 1, ?_⟩
    omega
  rw [hk, List.range_succ_eq_map, List.zip_cons_cons]
  simp only [bingPages, hnot, Bool.false_eq_true, if_false, hok, if_true]
  have hmain := bingCands_exact cfg 0 pg1.cands 0 m hcount
  have hreached : is_target_reached cfg (bingCands cfg 0 pg1.cands 0 m) = true := by
    unfold is_target_reached get_total_images at *
    rw [hmain]
    unfold get_remaining_needed get_total_images
    simp only [decide_eq_true_eq] at hnot ⊢
    simp only [decide_eq_false_iff_not] at hnot
    omega
  rw [bingPages_reached cfg _ _ hreached]
  exact hmain

/-- C1: in an acquisition run where the first two sources of the fixed
scraper list (Wikimedia Commons and Wikipedia) yield zero usable candidates
and the third (Bing) yields at least the `N` still-needed valid candidates on
its first result page, the run ends with `downloaded_count` exactly `N`
(`N = min_images - existing_count`) and the source routines after the third
(Google, Flickr, FishBase) are never invoked. -/
theorem c1_third_source_exact_fill (cfg : Cfg) (folder : List String) (env : Env)
    (pg1 : BingPage) (rest : List BingPage)
    (hterm : cfg.searchTerm ≠ "")
    (hwm : ∀ wf ∈ env.wikimedia.files, wikimediaUsable wf = false)
    (hwp : ∀ pg ∈ env.wikipedia, pg.status200 = true →
      wikipediaMainUsable pg = false ∧ ∀ im ∈ pg.imgs, wikipediaImgUsable im = false)
    (hbing : env.bing = pg1 :: rest) (hok : pg1.ok = true)
    (hcount : cfg.minImages - cfg.existingCount ≤ usableCountBing pg1.cands) :
    (run_scraping env cfg ⟨0, folder⟩).2.1.downloaded =
      cfg.minImages - cfg.existingCount ∧
    "google" ∉ (run_scraping env cfg ⟨0, folder⟩).2.2 ∧
    "flickr" ∉ (run_scraping env cfg ⟨0, folder⟩).2.2 ∧
    "fishbase" ∉ (run_scraping env cfg ⟨0, folder⟩).2.2 := by
  by_cases hreach : is_target_reached cfg ⟨0, folder⟩ = true
  · have hz : cfg.minImages - cfg.existingCount = 0 := by
      unfold is_target_reached get_total_images at hreach
      simp only [decide_eq_true_eq] at hreach
      omega
    unfold run_scraping
    rw [if_pos hreach]
    simp [hz]
  · have hreach0 : is_target_reached cfg ⟨0, folder⟩ = false := by
      simpa using hreach
    have hm1 : (scrape_wikimedia env.wikimedia cfg ⟨0, folder⟩).downloaded = 0 :=
      scrape_wikimedia_no_usable env.wikimedia cfg _ hwm
    have hreach1 : is_target_reached cfg
        (scrape_wikimedia env.wikimedia cfg ⟨0, folder⟩) = false := by
      unfold is_target_reached get_total_images at *
      rw [hm1]
      exact hreach0
    have hm2 : (scrape_wikipedia_images env.wikipedia cfg
        (scrape_wikimedia env.wikimedia cfg ⟨0, folder⟩)).downloaded = 0 := by
      rw [scrape_wikipedia_no_usable env.wikipedia cfg _ hwp]
      exact hm1
    have hreach2 : is_target_reached cfg (scrape_wikipedia_images env.wikipedia cfg
        (scrape_wikimedia env.wikimedia cfg ⟨0, folder⟩)) = false := by
      unfold is_target_reached get_total_images at *
      rw [hm2]
      exact hreach0
    have hrem2 : get_remaining_needed cfg (scrape_wikipedia_images env.wikipedia cfg
        (scrape_wikimedia env.wikimedia cfg ⟨0, folder⟩)) =
        cfg.minImages - cfg.existingCount := by
      unfold get_remaining_needed get_total_images
      rw [hm2]
      omega
    have hm3 : (scrape_bing_images env.bing cfg (scrape_wikipedia_images env.wikipedia cfg
        (scrape_wikimedia env.wikimedia cfg ⟨0, folder⟩))).downloaded =
        cfg.minImages - cfg.existingCount := by
      rw [hbing]
      rw [scrape_bing_exact cfg pg1 rest _ hterm hok hreach2 (by rw [hrem2]; exact hcount)]
      rw [hm2, hrem2]
      omega
    have hreach3 : is_target_reached cfg (scrape_bing_images env.bing cfg
        (scrape_wikipedia_images env.wikipedia cfg
          (scrape_wikimedia env.wikimedia cfg ⟨0, folder⟩))) = true := by
      unfold is_target_reached get_total_images at *
      rw [hm3]
      simp only [decide_eq_false_iff_not, decide_eq_true_eq, not_le] at hreach0 ⊢
      omega
    unfold run_scraping
    rw [if_neg (by simp [hreach0])]
    simp only [sourceList, runSources, hreach0, hreach1, hreach2, hreach3,
      Bool.false_eq_true, if_false, if_true]
    refine ⟨hm3, by simp, by simp, by simp⟩

/-- Witness for C1: empty first two sources, five usable Bing candidates,
target three. -/
theorem c1_third_source_exact_fill_witness :
    (run_scraping exEnvBing5
        { species := "fish", searchTerm := "t", minImages := 3, existingCount := 0 }
        ⟨0, []⟩).2.1.downloaded = 3 ∧
    "google" ∉ (run_scraping exEnvBing5
        { species := "fish", searchTerm := "t", minImages := 3, existingCount := 0 }
        ⟨0, []⟩).2.2 := by
  have h := c1_third_source_exact_fill
    { species := "fish", searchTerm := "t", minImages := 3, existingCount := 0 }
    [] exEnvBing5
    { ok := true,
      cands :=
        [{ url := "http://ex.com/fish1.jpg", fetch := exFetchOk },
         { url := "http://ex.com/fish1.jpg", fetch := exFetchOk },
         { url := "http://ex.com/fish1.jpg", fetch := exFetchOk },
         { url := "http://ex.com/fish1.jpg", fetch := exFetchOk },
         { url := "http://ex.com/fish1.jpg", fetch := exFetchOk }] }
    [] (by decide) (by decide) (by decide) (by decide) (by decide) (by decide)
  exact ⟨h.1, h.2.1⟩

/-! ## Claim C2: multi-scientific-name fallback accounting -/

/-- C2 evaluated at the failing input (code bug): species target 10, Latin
names `A ; B`, empty directory.  The first attempt downloads 5 images and
`run_scraping` returns 5; the second attempt's scraper counts those same 5
files as `existing_count`, reaches its (reduced) target immediately and
returns 5 again; `scrape_species` adds the two RETURN VALUES and reports
`SUCCESS` with `downloaded_images = 10` although only 5 images were ever
downloaded and only 5 files exist — `run_scraping` returns
`existing + downloaded`, so accumulating it double-counts earlier attempts'
files, contrary to the claim that `SUCCESS` requires the cumulative download
total to reach the target. -/
theorem c2_success_reported_with_half_downloads :
    (scrape_species "Fish" "A ; B" 10 [exEnvWm5, exEnvEmpty] []).1.status = "SUCCESS" ∧
    (scrape_species "Fish" "A ; B" 10 [exEnvWm5, exEnvEmpty] []).1.downloadedImages = 10 ∧
    (scrape_species "Fish" "A ; B" 10 [exEnvWm5, exEnvEmpty] []).1.attempts = 2 ∧
    (scrape_species "Fish" "A ; B" 10 [exEnvWm5, exEnvEmpty] []).2 =
      ["fish_0001.jpg", "fish_0002.jpg", "fish_0003.jpg", "fish_0004.jpg",
       "fish_0005.jpg"] ∧
    count_existing_images (scrape_species "Fish" "A ; B" 10 [exEnvWm5, exEnvEmpty] []).2 =
      5 := by
  decide

/-! ## Claim C6: normalization idempotence -/

theorem dropWhile_dropWhile (p : Char → Bool) (l : Str) :
    (l.dropWhile p).dropWhile p = l.dropWhile p := by
  induction l with
  | nil => rfl
  | cons a l ih =>
    by_cases h : p a = true
    · simp [List.dropWhile_cons, h, ih]
    · simp [List.dropWhile_cons, h]

theorem dropWhile_head_false {p : Char → Bool} {s x : Str} {c : Char}
    (h : s.dropWhile p = c :: x) : p c = false := by
  induction s with
  | nil => simp at h
  | cons a l ih =>
    rw [List.dropWhile_cons] at h
    split_ifs at h with ha
    · exact ih h
    · injection h with h1 h2
      subst h1
      simpa using ha

theorem stripL_no_leading (s : Str) :
    (stripL s).dropWhile isSpaceChar = stripL s := by
  unfold stripL
  cases hru : ((s.dropWhile isSpaceChar).reverse.dropWhile isSpaceChar).reverse with
  | nil => simp
  | cons c cs =>
    have hdecomp : s.dropWhile isSpaceChar =
        (c :: cs) ++ ((s.dropWhile isSpaceChar).reverse.takeWhile isSpaceChar).reverse := by
      conv_lhs => rw [← List.reverse_reverse (s.dropWhile isSpaceChar)]
      rw [← List.takeWhile_append_dropWhile isSpaceChar (s.dropWhile isSpaceChar).reverse,
        List.reverse_append, hru]
      simp [List.takeWhile_append_dropWhile]
    have hc : isSpaceChar c = false := by
      rw [List.cons_append] at hdecomp
      exact dropWhile_head_false hdecomp
    rw [List.dropWhile_cons, hc]
    simp

theorem stripL_no_trailing (s : Str) :
    (stripL s).reverse.dropWhile isSpaceChar = (stripL s).reverse := by
  unfold stripL
  rw [List.reverse_reverse]
  exact dropWhile_dropWhile _ _

theorem stripL_idem (s : Str) : stripL (stripL s) = stripL s := by
  conv_lhs => rw [stripL]
  rw [stripL_no_leading, stripL_no_trailing, List.reverse_reverse]

theorem stripL_cons_space (x : Str) : stripL (' ' :: x) = stripL x := by
  unfold stripL
  rw [List.dropWhile_cons]
  simp [isSpaceChar]

theorem stripL_append_space (x : Str) : stripL (x ++ [' ']) = stripL x := by
  unfold stripL
  rw [List.dropWhile_append]
  by_cases h : (x.dropWhile isSpaceChar).isEmpty = true
  · rw [if_pos h]
    have hx : x.dropWhile isSpaceChar = [] := by
      cases hc : x.dropWhile isSpaceChar
      · rfl
      · rw [hc] at h; simp at h
    rw [hx]
    simp [List.dropWhile_cons, isSpaceChar]
  · rw [if_neg h]
    rw [List.reverse_append]
    simp only [List.reverse_singleton, List.singleton_append]
    rw [List.dropWhile_cons]
    simp [isSpaceChar]

theorem mem_stripL {a : Char} {s : Str} (h : a ∈ stripL s) : a ∈ s := by
  unfold stripL at h
  rw [List.mem_reverse] at h
  have h2 := (List.dropWhile_sublist (l := (s.dropWhile isSpaceChar).reverse)
    isSpaceChar).mem h
  rw [List.mem_reverse] at h2
  exact (List.dropWhile_sublist isSpaceChar).mem h2

theorem splitChar_ne_nil (sep : Char) (s : Str) : splitChar sep s ≠ [] := by
  cases s with
  | nil => simp [splitChar]
  | cons c rest =>
    simp only [splitChar]
    split_ifs with h
    · simp
    · cases hm : splitChar sep rest <;> simp

theorem mem_splitChar_no_sep (sep : Char) (s : Str) :
    ∀ x ∈ splitChar sep s, sep ∉ x := by
  induction s with
  | nil =>
    intro x hx
    simp [splitChar] at hx
    simp [hx]
  | cons c rest ih =>
    intro x hx
    simp only [splitChar] at hx
    split_ifs at hx with h
    · rcases List.mem_cons.mp hx with rfl | hx'
      · simp
      · exact ih x hx'
    · have hc : c ≠ sep := by
        intro hcc
        rw [hcc] at h
        simp at h
      cases hm : splitChar sep rest with
      | nil => exact absurd hm (splitChar_ne_nil sep rest)
      | cons p ps =>
        rw [hm] at hx
        rcases List.mem_cons.mp hx with rfl | hx'
        · intro hmem
          rcases List.mem_cons.mp hmem with rfl | hmem'
          · exact hc rfl
          · exact ih p (by rw [hm]; exact List.mem_cons_self p ps) hmem'
        · exact ih x (by rw [hm]; exact List.mem_cons_of_mem p hx')

theorem splitChar_no_sep (sep : Char) (x : Str) (h : sep ∉ x) :
    splitChar sep x = [x] := by
  induction x with
  | nil => rfl
  | cons c rest ih =>
    have hc : (c == sep) = false := by
      simp only [List.mem_cons, not_or] at h
      simp [beq_iff_eq]
      exact fun hcc => h.1 hcc.symm
    simp only [splitChar, hc, Bool.false_eq_true, if_false]
    rw [ih (fun hm => h (List.mem_cons_of_mem c hm))]

theorem splitChar_append_sep (sep : Char) (x r : Str) (h : sep ∉ x) :
    splitChar sep (x ++ sep :: r) = x :: splitChar sep r := by
  induction x with
  | nil =>
    simp only [List.nil_append, splitChar, beq_self_eq_true, if_true]
  | cons c xs ih =>
    have hc : (c == sep) = false := by
      simp only [List.mem_cons, not_or] at h
      simp [beq_iff_eq]
      exact fun hcc => h.1 hcc.symm
    simp only [List.cons_append, splitChar, hc, Bool.false_eq_true, if_false,
      List.append_eq]
    rw [ih (fun hm => h (List.mem_cons_of_mem c hm))]

theorem mapStrip_splitChar_space (r : Str) :
    (splitChar ';' (' ' :: r)).map stripL = (splitChar ';' r).map stripL := by
  have h : (' ' == ';') = false := rfl
  simp only [splitChar, h, Bool.false_eq_true, if_false]
  cases hm : splitChar ';' r with
  | nil => exact absurd hm (splitChar_ne_nil ';' r)
  | cons p ps =>
    simp only [List.map_cons]
    rw [stripL_cons_space]

theorem sepData : " ; ".data = [' ', ';', ' '] := rfl

theorem mapStrip_splitChar_joinSep (l : List Str)
    (hsep : ∀ e ∈ l, ';' ∉ e) (hstr : ∀ e ∈ l, stripL e = e) (hne : l ≠ []) :
    (splitChar ';' (joinSep " ; ".data l)).map stripL = l := by
  induction l with
  | nil => exact absurd rfl hne
  | cons x xs ih =>
    cases xs with
    | nil =>
      show (splitChar ';' x).map stripL = [x]
      rw [splitChar_no_sep ';' x (hsep x (by simp))]
      simp [hstr x (by simp)]
    | cons y ys =>
      have hjoin : joinSep " ; ".data (x :: y :: ys) =
          (x ++ [' ']) ++ ';' :: (' ' :: joinSep " ; ".data (y :: ys)) := by
        show x ++ " ; ".data ++ joinSep " ; ".data (y :: ys) = _
        rw [sepData]
        simp
      rw [hjoin]
      rw [splitChar_append_sep ';' _ _ (by
        intro hm
        rcases List.mem_append.mp hm with hm' | hm'
        · exact hsep x (by simp) hm'
        · simp at hm')]
      rw [List.map_cons, stripL_append_space, hstr x (by simp)]
      rw [mapStrip_splitChar_space]
      rw [ih (fun e he => hsep e (List.mem_cons_of_mem x he))
        (fun e he => hstr e (List.mem_cons_of_mem x he)) (by simp)]

theorem mem_uniqueNamesAux {seen l : List Str} {e : Str}
    (h : e ∈ uniqueNamesAux seen l) : e ∈ l ∧ e ∉ seen ∧ e ≠ [] := by
  induction l generalizing seen with
  | nil => simp [uniqueNamesAux] at h
  | cons n ns ih =>
    simp only [uniqueNamesAux] at h
    split_ifs at h with hc
    · rcases List.mem_cons.mp h with rfl | h'
      · exact ⟨List.mem_cons_self _ _, hc.2, hc.1⟩
      · obtain ⟨h1, h2, h3⟩ := ih h'
        exact ⟨List.mem_cons_of_mem _ h1, fun hs => h2 (List.mem_cons_of_mem _ hs), h3⟩
    · obtain ⟨h1, h2, h3⟩ := ih h
      exact ⟨List.mem_cons_of_mem _ h1, h2, h3⟩

theorem uniqueNamesAux_nodup (seen l : List Str) : (uniqueNamesAux seen l).Nodup := by
  induction l generalizing seen with
  | nil => simp [uniqueNamesAux]
  | cons n ns ih =>
    simp only [uniqueNamesAux]
    split_ifs with hc
    · refine List.nodup_cons.mpr ⟨fun hmem => ?_, ih _⟩
      exact (mem_uniqueNamesAux hmem).2.1 (List.mem_cons_self _ _)
    · exact ih _

theorem uniqueNamesAux_fixed (l : List Str) (hnd : l.Nodup)
    (hne : ∀ e ∈ l, e ≠ []) :
    ∀ seen, (∀ e ∈ l, e ∉ seen) → uniqueNamesAux seen l = l := by
  induction l with
  | nil => intro seen _; rfl
  | cons n ns ih =>
    intro seen hs
    simp only [uniqueNamesAux]
    rw [if_pos ⟨hne n (by simp), hs n (by simp)⟩]
    congr 1
    refine ih (List.nodup_cons.mp hnd).2 (fun e he => hne e (List.mem_cons_of_mem _ he))
      (n :: seen) (fun e he => ?_)
    intro hmem
    rcases List.mem_cons.mp hmem with rfl | hmem'
    · exact (List.nodup_cons.mp hnd).1 he
    · exact hs e (List.mem_cons_of_mem _ he) hmem'

theorem joinSep_ne_nil (sep : Str) (l : List Str) (hne : l ≠ [])
    (h : ∀ e ∈ l, e ≠ []) : joinSep sep l ≠ [] := by
  cases l with
  | nil => exact absurd rfl hne
  | cons x xs =>
    cases xs with
    | nil => exact h x (by simp)
    | cons y ys =>
      show x ++ sep ++ joinSep sep (y :: ys) ≠ []
      simp [h x (by simp)]

/-- C6: scientific-name normalization is idempotent, and it maps the input
`"A ; B ; A"` to `"A ; B"` — the `';'`-separated entries are stripped, empty
entries dropped, and exact duplicates removed keeping first occurrences, so a
second normalization pass changes nothing. -/
theorem c6_normalize_latin_name_idempotent :
    (∀ s : Str, normalize_latin_name (some (normalize_latin_name (some s))) =
      normalize_latin_name (some s)) ∧
    normalize_latin_name (some "A ; B ; A".data) = "A ; B".data := by
  constructor
  · intro s
    by_cases hs : s = []
    · subst hs
      simp [normalize_latin_name]
    · have hout : normalize_latin_name (some s) =
          joinSep " ; ".data (uniqueNamesAux [] ((splitChar ';' s).map stripL)) := by
        simp [normalize_latin_name, hs]
      have hmemL : ∀ e ∈ uniqueNamesAux [] ((splitChar ';' s).map stripL),
          (';' ∉ e) ∧ stripL e = e ∧ e ≠ [] := by
        intro e he
        obtain ⟨hin, _, hnee⟩ := mem_uniqueNamesAux he
        obtain ⟨p, hp, hpe⟩ := List.mem_map.mp hin
        refine ⟨fun hc => mem_splitChar_no_sep ';' s p hp ?_, ?_, hnee⟩
        · rw [← hpe] at hc
          exact mem_stripL hc
        · rw [← hpe]
          exact stripL_idem p
      by_cases hLnil : uniqueNamesAux [] ((splitChar ';' s).map stripL) = []
      · rw [hout, hLnil]
        simp [normalize_latin_name, joinSep]
      · have houtne : joinSep " ; ".data
            (uniqueNamesAux [] ((splitChar ';' s).map stripL)) ≠ [] :=
          joinSep_ne_nil _ _ hLnil (fun e he => (hmemL e he).2.2)
        rw [hout]
        simp only [normalize_latin_name, if_neg houtne]
        rw [mapStrip_splitChar_joinSep _ (fun e he => (hmemL e he).1)
          (fun e he => (hmemL e he).2.1) hLnil]
        rw [uniqueNamesAux_fixed _ (uniqueNamesAux_nodup _ _)
          (fun e he => (hmemL e he).2.2) [] (by simp)]
  · decide

/-! ## Claim C5: the cleanup merge -/

theorem findSplit_post_length {sep : Str} (hsep : sep ≠ []) :
    ∀ {s pre post : Str}, findSplit sep s = some (pre, post) → post.length < s.length := by
  intro s
  induction s with
  | nil => intro pre post h; simp [findSplit] at h
  | cons c rest ih =>
    intro pre post h
    have hpos : 0 < sep.length := List.length_pos.mpr hsep
    simp only [findSplit] at h
    split_ifs at h with hp
    · simp only [Option.some.injEq, Prod.mk.injEq] at h
      obtain ⟨h1, h2⟩ := h
      subst h2
      simp only [List.length_drop]
      simp only [List.length_cons]
      omega
    · cases hm : findSplit sep rest with
      | none => rw [hm] at h; simp at h
      | some pq =>
        obtain ⟨p', q'⟩ := pq
        rw [hm] at h
        simp only [Option.some.injEq, Prod.mk.injEq] at h
        obtain ⟨h1, h2⟩ := h
        subst h2
        have := ih hm
        simp only [List.length_cons]
        omega

theorem splitFuel_congr {sep : Str} (hsep : sep ≠ []) :
    ∀ (f g : Nat) (s : Str), s.length ≤ f → s.length ≤ g →
      splitFuel sep f s = splitFuel sep g s := by
  intro f
  induction f with
  | zero =>
    intro g s hf hg
    have hs : s = [] := List.eq_nil_of_length_eq_zero (by omega)
    subst hs
    cases g <;> simp [splitFuel, findSplit]
  | succ f ih =>
    intro g s hf hg
    cases g with
    | zero =>
      have hs : s = [] := List.eq_nil_of_length_eq_zero (by omega)
      subst hs
      simp [splitFuel, findSplit]
    | succ g' =>
      cases hm : findSplit sep s with
      | none => simp only [splitFuel, hm]
      | some pq =>
        obtain ⟨pre, post⟩ := pq
        have hlt := findSplit_post_length hsep hm
        simp only [splitFuel, hm]
        rw [ih g' post (by omega) (by omega)]

theorem splitOnStr_of_none {sep s : Str} (hsep : sep ≠ [])
    (h : findSplit sep s = none) : splitOnStr sep s = [s] := by
  unfold splitOnStr
  rw [if_neg hsep]
  cases hl : s.length with
  | zero => rfl
  | succ n => simp [splitFuel, h]

theorem splitOnStr_of_some {sep s pre post : Str} (hsep : sep ≠ [])
    (h : findSplit sep s = some (pre, post)) :
    splitOnStr sep s = pre :: splitOnStr sep post := by
  have hlt := findSplit_post_length hsep h
  unfold splitOnStr
  rw [if_neg hsep, if_neg hsep]
  obtain ⟨n, hn⟩ : ∃ n, s.length = n + 1 := ⟨s.length - 1, by omega⟩
  rw [hn]
  simp only [splitFuel, h]
  congr 1
  exact splitFuel_congr hsep n post.length post (by omega) le_rfl

theorem isPrefixL_semi_mem {s : Str} (h : isPrefixL [' ', ';', ' '] s = true) :
    ';' ∈ s := by
  cases s with
  | nil => simp [isPrefixL] at h
  | cons a t =>
    cases t with
    | nil => simp [isPrefixL] at h
    | cons b t' =>
      simp only [isPrefixL, Bool.and_eq_true, beq_iff_eq] at h
      obtain ⟨h1, h2, _⟩ := h
      subst h2
      simp

theorem findSplit_semi_none {s : Str} (h : ';' ∉ s) :
    findSplit [' ', ';', ' '] s = none := by
  induction s with
  | nil => rfl
  | cons c rest ih =>
    simp only [findSplit]
    rw [if_neg (fun hp => h (isPrefixL_semi_mem hp))]
    rw [ih (fun hm => h (List.mem_cons_of_mem c hm))]

theorem findSplit_semi_append (x r : Str) (hx : ';' ∉ x) :
    findSplit [' ', ';', ' '] (x ++ [' ', ';', ' '] ++ r) = some (x, r) := by
  induction x with
  | nil =>
    show findSplit _ (' ' :: ';' :: ' ' :: r) = _
    simp only [findSplit]
    rw [if_pos (by simp [isPrefixL])]
    rfl
  | cons c xs ih =>
    have hcx : ';' ∉ xs := fun hm => hx (List.mem_cons_of_mem c hm)
    show findSplit _ (c :: (xs ++ [' ', ';', ' '] ++ r)) = some (c :: xs, r)
    simp only [findSplit]
    rw [if_neg ?hpref]
    · rw [ih hcx]
    case hpref =>
      intro hp
      simp only [isPrefixL, Bool.and_eq_true, beq_iff_eq] at hp
      obtain ⟨h1, hp2⟩ := hp
      cases hxs : xs with
      | nil =>
        rw [hxs] at hp2
        simp only [List.nil_append, List.cons_append] at hp2
        simp [isPrefixL] at hp2
      | cons d xs' =>
        rw [hxs] at hp2
        simp only [List.cons_append] at hp2
        have hd : d ≠ ';' := by
          intro hdd
          exact hx (by rw [hxs, hdd]; simp)
        simp only [isPrefixL, Bool.and_eq_true, beq_iff_eq] at hp2
        exact hd hp2.1.symm

theorem splitOnStr_semi_join (l : List Str) (h : ∀ e ∈ l, ';' ∉ e) (hne : l ≠ []) :
    splitOnStr [' ', ';', ' '] (joinSep [' ', ';', ' '] l) = l := by
  have hsep : ([' ', ';', ' '] : Str) ≠ [] := by simp
  induction l with
  | nil => exact absurd rfl hne
  | cons x xs ih =>
    cases xs with
    | nil =>
      show splitOnStr _ x = [x]
      rw [splitOnStr_of_none hsep (findSplit_semi_none (h x (by simp)))]
    | cons y ys =>
      show splitOnStr _ (x ++ [' ', ';', ' '] ++ joinSep [' ', ';', ' '] (y :: ys)) =
        x :: y :: ys
      rw [splitOnStr_of_some hsep
        (findSplit_semi_append x (joinSep [' ', ';', ' '] (y :: ys)) (h x (by simp)))]
      rw [ih (fun e he => h e (List.mem_cons_of_mem x he)) (by simp)]

theorem mem_dedupSeen {α : Type} [DecidableEq α] {x : α} :
    ∀ {seen l : List α}, x ∈ dedupSeen seen l ↔ x ∈ l ∧ x ∉ seen := by
  intro seen l
  induction l generalizing seen with
  | nil => simp [dedupSeen]
  | cons a as ih =>
    simp only [dedupSeen]
    split_ifs with ha
    · rw [ih]
      constructor
      · rintro ⟨h1, h2⟩
        exact ⟨List.mem_cons_of_mem a h1, h2⟩
      · rintro ⟨h1, h2⟩
        rcases List.mem_cons.mp h1 with rfl | h1'
        · exact absurd ha h2
        · exact ⟨h1', h2⟩
    · constructor
      · intro hm
        rcases List.mem_cons.mp hm with rfl | hm'
        · exact ⟨List.mem_cons_self _ _, ha⟩
        · obtain ⟨h1, h2⟩ := ih.mp hm'
          refine ⟨List.mem_cons_of_mem a h1, fun hs => h2 (List.mem_cons_of_mem a hs)⟩
      · rintro ⟨h1, h2⟩
        rcases List.mem_cons.mp h1 with rfl | h1'
        · exact List.mem_cons_self _ _
        · by_cases hxa : x = a
          · subst hxa
            exact List.mem_cons_self _ _
          · refine List.mem_cons_of_mem a (ih.mpr ⟨h1', fun hs => ?_⟩)
            rcases List.mem_cons.mp hs with h' | h'
            · exact hxa h'
            · exact h2 h'

theorem dedupSeen_nodup {α : Type} [DecidableEq α] :
    ∀ (seen l : List α), (dedupSeen seen l).Nodup := by
  intro seen l
  induction l generalizing seen with
  | nil => simp [dedupSeen]
  | cons a as ih =>
    simp only [dedupSeen]
    split_ifs with ha
    · exact ih seen
    · refine List.nodup_cons.mpr ⟨fun hmem => ?_, ih _⟩
      exact (mem_dedupSeen.mp hmem).2 (List.mem_cons_self _ _)

theorem mem_pySorted {x : Str} {l : List Str} : x ∈ pySorted l ↔ x ∈ l :=
  (List.perm_insertionSort _ l).mem_iff

theorem pySorted_nodup {l : List Str} (h : l.Nodup) : (pySorted l).Nodup :=
  (List.perm_insertionSort _ l).nodup_iff.mpr h

theorem argmaxFirst_eq_none {α : Type} (cnt : α → Nat) {l : List α} :
    argmaxFirst cnt l = none ↔ l = [] := by
  cases l with
  | nil => simp [argmaxFirst]
  | cons k ks =>
    cases hrec : argmaxFirst cnt ks with
    | none => simp [argmaxFirst, hrec]
    | some b =>
      simp only [argmaxFirst, hrec]
      split_ifs <;> simp

theorem argmaxFirst_mem {α : Type} {cnt : α → Nat} :
    ∀ {l : List α} {r : α}, argmaxFirst cnt l = some r → r ∈ l := by
  intro l
  induction l with
  | nil => intro r h; simp [argmaxFirst] at h
  | cons k ks ih =>
    intro r h
    cases hrec : argmaxFirst cnt ks with
    | none =>
      simp only [argmaxFirst, hrec, Option.some.injEq] at h
      subst h
      exact List.mem_cons_self _ _
    | some b =>
      simp only [argmaxFirst, hrec] at h
      split_ifs at h with hgt <;> simp only [Option.some.injEq] at h <;> subst h
      · exact List.mem_cons_of_mem _ (ih hrec)
      · exact List.mem_cons_self _ _

theorem argmaxFirst_max {α : Type} {cnt : α → Nat} :
    ∀ {l : List α} {r : α}, argmaxFirst cnt l = some r → ∀ x ∈ l, cnt x ≤ cnt r := by
  intro l
  induction l with
  | nil => intro r h x hx; simp at hx
  | cons k ks ih =>
    intro r h x hx
    cases hrec : argmaxFirst cnt ks with
    | none =>
      have hks : ks = [] := (argmaxFirst_eq_none cnt).mp hrec
      simp only [argmaxFirst, hrec, Option.some.injEq] at h
      subst h
      subst hks
      rcases List.mem_cons.mp hx with rfl | hx'
      · exact le_rfl
      · simp at hx'
    | some b =>
      simp only [argmaxFirst, hrec] at h
      split_ifs at h with hgt <;> simp only [Option.some.injEq] at h <;> subst h
      · rcases List.mem_cons.mp hx with rfl | hx'
        · omega
        · exact ih hrec x hx'
      · rcases List.mem_cons.mp hx with rfl | hx'
        · exact le_rfl
        · have := ih hrec x hx'
          omega

theorem firstIdx_cons_self (l : List Str) (v : Str) : firstIdx (v :: l) v = 0 := by
  simp [firstIdx, List.takeWhile_cons]

theorem firstIdx_cons_ne (l : List Str) (v k : Str) (h : v ≠ k) :
    firstIdx (k :: l) v = firstIdx l v + 1 := by
  have hk : k ≠ v := fun hh => h hh.symm
  simp [firstIdx, List.takeWhile_cons, hk]

theorem argmaxFirst_first {cnt : Str → Nat} :
    ∀ {l : List Str} {r : Str}, l.Nodup → argmaxFirst cnt l = some r →
      ∀ x ∈ l, cnt x = cnt r → firstIdx l r ≤ firstIdx l x := by
  intro l
  induction l with
  | nil => intro r _ h x hx; simp at hx
  | cons k ks ih =>
    intro r hnd h x hx hcnt
    cases hrec : argmaxFirst cnt ks with
    | none =>
      have hks : ks = [] := (argmaxFirst_eq_none cnt).mp hrec
      simp only [argmaxFirst, hrec, Option.some.injEq] at h
      subst h
      subst hks
      rcases List.mem_cons.mp hx with rfl | hx'
      · exact le_rfl
      · simp at hx'
    | some b =>
      simp only [argmaxFirst, hrec] at h
      split_ifs at h with hgt <;> simp only [Option.some.injEq] at h <;> subst h
      · have hbks : b ∈ ks := argmaxFirst_mem hrec
        have hbk : b ≠ k := by
          intro hh
          subst hh
          exact (List.nodup_cons.mp hnd).1 hbks
        rcases List.mem_cons.mp hx with rfl | hx'
        · omega
        · have hxk : x ≠ k := by
            intro hh
            subst hh
            exact (List.nodup_cons.mp hnd).1 hx'
          rw [firstIdx_cons_ne ks b k hbk, firstIdx_cons_ne ks x k hxk]
          have := ih (List.nodup_cons.mp hnd).2 hrec x hx' hcnt
          omega
      · rw [firstIdx_cons_self]
        omega

theorem maxListN_mem : ∀ {l : List Nat}, l ≠ [] → maxListN l ∈ l := by
  intro l
  induction l with
  | nil => intro h; exact absurd rfl h
  | cons x xs ih =>
    intro _
    by_cases hxs : xs = []
    · subst hxs
      simp [maxListN]
    · show max x (maxListN xs) ∈ x :: xs
      rcases Nat.le_total (maxListN xs) x with hle | hle
      · rw [Nat.max_eq_left hle]
        exact List.mem_cons_self _ _
      · rw [Nat.max_eq_right hle]
        exact List.mem_cons_of_mem _ (ih hxs)

theorem maxListN_ge : ∀ {l : List Nat}, ∀ x ∈ l, x ≤ maxListN l := by
  intro l
  induction l with
  | nil => intro x hx; simp at hx
  | cons a as ih =>
    intro x hx
    rcases List.mem_cons.mp hx with rfl | hx'
    · simp [maxListN]
    · simp only [maxListN]
      exact le_max_of_le_right (ih x hx')


theorem mem_collectLatin {n : Str} {g : List Row} :
    n ∈ collectLatin g ↔ ∃ r ∈ g, n ∈ rowNames r := by
  simp [collectLatin, List.mem_flatten]

theorem rowNames_elem_props {r : Row} {n : Str} (h : n ∈ rowNames r) :
    stripL n = n ∧ n ≠ [] := by
  unfold rowNames at h
  cases hnl : r.nama_latin with
  | none => rw [hnl] at h; simp at h
  | some s =>
    rw [hnl] at h
    obtain ⟨hmem, hne⟩ := List.mem_filter.mp h
    obtain ⟨p, _, hpe⟩ := List.mem_map.mp hmem
    refine ⟨?_, by simpa using hne⟩
    rw [← hpe]
    exact stripL_idem p

theorem rowNames_eq_of_some {r : Row} {s : Str} (h : r.nama_latin = some s) :
    rowNames r = ((splitOnStr " ; ".data s).map stripL).filter (fun n => n ≠ []) := by
  unfold rowNames
  rw [h]

/-- C5: for a group of catalog rows sharing a local name, the merged row's
scientific-name field lists exactly the set union of the group's names (each
name free of the separator's `';'`), its minimum-image target is the maximum
of the group's non-null targets, and each scalar categorical field is the
most frequent non-empty value with ties broken by first-seen order. -/
theorem c5_merge_union_max_majority (r0 : Row) (rs : List Row)
    (hfree : ∀ r ∈ r0 :: rs, ∀ n ∈ rowNames r, ';' ∉ n) :
    (∀ n, n ∈ rowNames (final_cleanup_merge r0 rs) ↔ ∃ r ∈ r0 :: rs, n ∈ rowNames r) ∧
    (collectMin (r0 :: rs) ≠ [] →
      ∃ m, (final_cleanup_merge r0 rs).min_images = some m ∧
        m ∈ collectMin (r0 :: rs) ∧ ∀ x ∈ collectMin (r0 :: rs), x ≤ m) ∧
    (∀ col, collectCol col (r0 :: rs) ≠ [] →
      ∃ v, (final_cleanup_merge r0 rs).scalars col = some v ∧
        v ∈ collectCol col (r0 :: rs) ∧
        (∀ w ∈ collectCol col (r0 :: rs),
          countOcc (collectCol col (r0 :: rs)) w ≤ countOcc (collectCol col (r0 :: rs)) v) ∧
        (∀ w ∈ dedupSeen [] (collectCol col (r0 :: rs)),
          countOcc (collectCol col (r0 :: rs)) w = countOcc (collectCol col (r0 :: rs)) v →
          firstIdx (dedupSeen [] (collectCol col (r0 :: rs))) v ≤
            firstIdx (dedupSeen [] (collectCol col (r0 :: rs))) w)) := by
  refine ⟨?_, ?_, ?_⟩
  · -- scientific names: set union
    intro n
    have hmergedlatin : (final_cleanup_merge r0 rs).nama_latin =
        some (joinSep " ; ".data (pySorted (dedupSeen [] (collectLatin (r0 :: rs))))) := by
      simp [final_cleanup_merge]
    have hLprops : ∀ e ∈ pySorted (dedupSeen [] (collectLatin (r0 :: rs))),
        (';' ∉ e) ∧ stripL e = e ∧ e ≠ [] := by
      intro e he
      have he' : e ∈ collectLatin (r0 :: rs) :=
        (mem_dedupSeen.mp (mem_pySorted.mp he)).1
      obtain ⟨r, hr, hn⟩ := mem_collectLatin.mp he'
      obtain ⟨h1, h2⟩ := rowNames_elem_props hn
      exact ⟨hfree r hr e hn, h1, h2⟩
    by_cases hL : pySorted (dedupSeen [] (collectLatin (r0 :: rs))) = []
    · rw [rowNames_eq_of_some hmergedlatin, hL]
      constructor
      · intro hmem
        simp [joinSep, splitOnStr, splitFuel, stripL] at hmem
      · rintro ⟨r, hr, hn⟩
        exfalso
        have : n ∈ collectLatin (r0 :: rs) := mem_collectLatin.mpr ⟨r, hr, hn⟩
        have : n ∈ pySorted (dedupSeen [] (collectLatin (r0 :: rs))) :=
          mem_pySorted.mpr (mem_dedupSeen.mpr ⟨this, by simp⟩)
        rw [hL] at this
        simp at this
    · have hrt : rowNames (final_cleanup_merge r0 rs) =
          pySorted (dedupSeen [] (collectLatin (r0 :: rs))) := by
        rw [rowNames_eq_of_some hmergedlatin]
        have hsd : (" ; ".data : Str) = [' ', ';', ' '] := rfl
        rw [hsd]
        rw [splitOnStr_semi_join _ (fun e he => (hLprops e he).1) hL]
        rw [List.map_congr_left (fun e he => (hLprops e he).2.1), List.map_id']
        rw [List.filter_eq_self.mpr (fun e he => by simpa using (hLprops e he).2.2)]
      rw [hrt]
      constructor
      · intro hmem
        exact mem_collectLatin.mp (mem_dedupSeen.mp (mem_pySorted.mp hmem)).1
      · intro hex
        exact mem_pySorted.mpr
          (mem_dedupSeen.mpr ⟨mem_collectLatin.mpr hex, by simp⟩)
  · -- min_images: maximum of non-null targets
    intro hne
    refine ⟨maxListN (collectMin (r0 :: rs)), ?_, maxListN_mem hne, maxListN_ge⟩
    simp [final_cleanup_merge, hne]
  · -- scalar columns: most frequent, first-seen ties
    intro col hvne
    have hkeysne : dedupSeen [] (collectCol col (r0 :: rs)) ≠ [] := by
      cases hcc : collectCol col (r0 :: rs) with
      | nil => exact absurd hcc hvne
      | cons a as =>
        have ha : a ∈ dedupSeen ([] : List Str) (a :: as) :=
          mem_dedupSeen.mpr ⟨by simp, by simp⟩
        exact List.ne_nil_of_mem ha
    cases ham : argmaxFirst (fun v => countOcc (collectCol col (r0 :: rs)) v)
        (dedupSeen [] (collectCol col (r0 :: rs))) with
    | none => exact absurd ((argmaxFirst_eq_none _).mp ham) hkeysne
    | some v =>
      refine ⟨v, ?_, ?_, ?_, ?_⟩
      · simp [final_cleanup_merge, mostCommonValue, ham]
      · exact (mem_dedupSeen.mp (argmaxFirst_mem ham)).1
      · intro w hw
        exact argmaxFirst_max ham w (mem_dedupSeen.mpr ⟨hw, by simp⟩)
      · intro w hw hcnt
        exact argmaxFirst_first (dedupSeen_nodup _ _) ham w hw hcnt

/-- Witness for C5 at the claim's concrete instance: rows with name lists
`A ; B` and `B ; C` merge to a row containing `C` (and every name of the
union), and the merged minimum-image target is the maximum of the inputs. -/
theorem c5_merge_union_max_majority_witness :
    "C".data ∈ rowNames (final_cleanup_merge exRow1 [exRow2]) ∧
    ∃ m, (final_cleanup_merge exRow1 [exRow2]).min_images = some m ∧
      m ∈ collectMin (exRow1 :: [exRow2]) ∧
      ∀ x ∈ collectMin (exRow1 :: [exRow2]), x ≤ m := by
  have h := c5_merge_union_max_majority exRow1 [exRow2] (by decide)
  exact ⟨(h.1 "C".data).mpr ⟨exRow2, by simp, by decide⟩, h.2.1 (by decide)⟩

end FishSpec
